import Mathlib

/-!
Verification of the schiba connection registry and schema introspection core.

JavaScript strings are embedded as `List Char`; JavaScript `Record<string, T>`
objects are embedded as insertion-ordered association lists.  Thrown errors are
embedded as `Except` values paired with the post-call state, so that "the
registry is unchanged on failure" is expressible.  Timestamps (`new
Date().toISOString()`) and the process environment are passed in as parameters.
-/

deriving instance DecidableEq for Except

namespace Schiba

/-- Strings of the embedded programs: JavaScript strings as character lists. -/
abbrev Str := List Char

/-- Coercion from Lean string literals into the embedding's strings. -/
def str (s : String) : Str := s.data

/-! ## Generic association-list model of JavaScript `Record<string, T>` -/

/-- First-match association lookup, the embedding of `record[key]`. -/
def recordLookup {α : Type} : List (Str × α) → Str → Option α
  | [], _ => none
  | (k', v) :: rest, k => if k' = k then some v else recordLookup rest k

/-- The embedding of `record[key] = v`: update in place if the key exists
(JavaScript objects keep the original key position), else append. -/
def recordSet {α : Type} : List (Str × α) → Str → α → List (Str × α)
  | [], k, v => [(k, v)]
  | (k', v') :: rest, k, v =>
    if k' = k then (k, v) :: rest else (k', v') :: recordSet rest k v

/-- The embedding of `delete record[key]`. -/
def recordDelete {α : Type} (m : List (Str × α)) (k : Str) : List (Str × α) :=
  m.filter (fun p => p.1 ≠ k)

/-- The embedding of `Object.keys(record)` (insertion order). -/
def recordKeys {α : Type} (m : List (Str × α)) : List Str :=
  m.map Prod.fst

/-! ## SSL policy translator (`src/utils/ssl.ts`) -/

/-- The transport options `buildSSLConfig` can return: `false` (TLS disabled),
or an options object with `rejectUnauthorized` and optionally a
`checkServerIdentity: () => undefined` override that suppresses hostname
verification. -/
inductive SSLTransport where
  | off
  | tls (rejectUnauthorized : Bool) (suppressServerIdentityCheck : Bool)
deriving DecidableEq

/-- Embedding of `buildSSLConfig`: the literal-keyed `sslModes` record lookup,
with `|| false` turning a missing key into `false`. -/
def buildSSLConfig (sslMode : Str) : SSLTransport :=
  if sslMode = str "disable" then .off
  else if sslMode = str "allow" then .tls false false
  else if sslMode = str "prefer" then .tls false false
  else if sslMode = str "require" then .tls false false
  else if sslMode = str "verify-ca" then .tls true true
  else if sslMode = str "verify-full" then .tls true false
  else .off

/-- The `validSSLModes` list of `ConfigManager.update`. -/
def validSSLModes : List Str :=
  [str "disable", str "allow", str "prefer", str "require",
   str "verify-ca", str "verify-full"]

/-! ## MongoDB analyzer (`src/core/analyzers/mongodb.ts`) -/

/-- A sampled BSON document, embedded as its fields paired with the `typeof`
tag of the stored value.  A field whose value is literally `undefined` carries
the tag `"undefined"`, exactly as `typeof` reports it. -/
abbrev MongoDoc := List (Str × Str)

/-- Embedding of `Object.keys(doc)`: the document's keys, first occurrence
order, duplicates removed (a JavaScript object cannot hold a duplicate key). -/
def docKeys (d : MongoDoc) : List Str :=
  (d.map Prod.fst).eraseDups

/-- Embedding of `typeof doc[key]`: the stored tag, or `"undefined"` when the
key is absent. -/
def typeofField (d : MongoDoc) (k : Str) : Str :=
  match recordLookup d k with
  | some t => t
  | none => str "undefined"

/-- The input to collection extraction: a collection's name, the five-document
`$sample` result, and its `indexes()` listing (payload kept opaque). -/
structure SampledCollection where
  name : Str
  sample : List MongoDoc
  indexes : List Str
deriving DecidableEq

/-- One entry of the analyzer's output, mirroring the `MongoCollection`
interface. -/
structure MongoCollection where
  collection : Str
  fields : List Str
  types : List (Str × List Str)
  indexes : List Str
  sampleData : MongoDoc
deriving DecidableEq

/-- Embedding of `MongoAnalyzer.extractCollections`: collections whose sample
is empty are skipped; `fields` is the set-deduplicated union of keys across
the sample; `types` maps each key of the **first** sampled document to the
set-deduplicated, `filter(Boolean)`-filtered list of `typeof` tags that key
exhibits across the whole sample. -/
def MongoAnalyzer.extractCollections (colls : List SampledCollection) :
    List MongoCollection :=
  colls.filterMap fun c =>
    match c.sample with
    | [] => none
    | d0 :: _ =>
      some
        { collection := c.name
          fields := ((c.sample.map docKeys).flatten).eraseDups
          types :=
            (docKeys d0).map fun k =>
              (k, ((c.sample.map (fun d => typeofField d k)).filter
                     (fun t => t ≠ str "")).eraseDups)
          indexes := c.indexes
          sampleData := d0 }

/-- The fields of `SchemaStats` the MongoDB analyzer fills in (`totalSize`, a
serialized byte length, is not modelled: no claim mentions it). -/
structure SchemaStats where
  objectCount : Nat
  collections : Nat
  fields : Nat
  indexes : Nat
deriving DecidableEq

/-- Embedding of `MongoAnalyzer.calculateStats`. -/
def MongoAnalyzer.calculateStats (colls : List MongoCollection) : SchemaStats :=
  { objectCount := colls.length
    collections := colls.length
    fields := (colls.map (fun c => c.fields.length)).sum
    indexes := (colls.map (fun c => c.indexes.length)).sum }

/-! ## Connection-string SSL augmentation (`src/utils/ssl.ts`) -/

/-- A character at which a query parameter can start (the `[?&]` of the
stripping regex). -/
def delim (c : Char) : Bool := c = '?' || c = '&'

/-- Bool-valued "the first list is a leading segment of the second". -/
def startsW : Str → Str → Bool
  | [], _ => true
  | _ :: _, [] => false
  | p :: ps, c :: cs => p = c && startsW ps cs

/-- Fuel-driven worker for the regex replace
`connectionString.replace(/[?&]ssl(mode)?=[^&]*/g, '')`: scanning left to
right, a delimiter followed by `sslmode=` or `ssl=` starts a match, which
extends over `[^&]*`; scanning resumes at the terminating `&` (not consumed by
the match, exactly as the JavaScript regex engine leaves it).  The fuel only
serves structural termination; `stripSSL` supplies enough for the fuel to
never run out. -/
def stripGo : Nat → Str → Str
  | 0, s => s
  | fuel + 1, s =>
    match s with
    | [] => []
    | c :: r =>
      if delim c && startsW (str "sslmode=") r then
        stripGo fuel ((r.drop 8).dropWhile (fun c => c ≠ '&'))
      else if delim c && startsW (str "ssl=") r then
        stripGo fuel ((r.drop 4).dropWhile (fun c => c ≠ '&'))
      else c :: stripGo fuel r

/-- The `cleanUrl` computation of `appendSSLToConnectionString`. -/
def stripSSL (s : Str) : Str := stripGo s.length s

/-- Embedding of `appendSSLToConnectionString`. -/
def appendSSLToConnectionString (connectionString sslMode : Str) : Str :=
  let cleanUrl := stripSSL connectionString
  let separator : Str := if ('?' : Char) ∈ cleanUrl then str "&" else str "?"
  if sslMode = str "disable" then cleanUrl ++ separator ++ str "sslmode=disable"
  else cleanUrl ++ separator ++ str "sslmode=" ++ sslMode

/-- The six symbolic SSL modes. -/
inductive SSLMode where
  | disable | allow | prefer | require | verifyCa | verifyFull
deriving DecidableEq

/-- The connection-string spelling of each mode. -/
def modeStr : SSLMode → Str
  | .disable => str "disable"
  | .allow => str "allow"
  | .prefer => str "prefer"
  | .require => str "require"
  | .verifyCa => str "verify-ca"
  | .verifyFull => str "verify-full"

/-! ### Re-parsing a URL's query parameters

The observer side of the SSL round-trip property: the query part of a URL is
everything after the first `?`, split on `&`; within a parameter, the key is
everything before the first `=` (the whole parameter when there is no `=`). -/

/-- Everything after the first occurrence of `?`; empty when there is none. -/
def queryPart (s : Str) : Str := (s.dropWhile (fun c => c ≠ '?')).drop 1

/-- Split a list at every occurrence of a separator character. -/
def splitOnChar (sep : Char) : Str → List Str
  | [] => [[]]
  | c :: r =>
    if c = sep then [] :: splitOnChar sep r
    else
      match splitOnChar sep r with
      | [] => [[c]]
      | seg :: rest => (c :: seg) :: rest

/-- A query parameter's key: everything before the first `=`. -/
def keyOf (seg : Str) : Str := seg.takeWhile (fun c => c ≠ '=')

/-- A query parameter's value: everything after the first `=`. -/
def valOf (seg : Str) : Str := (seg.dropWhile (fun c => c ≠ '=')).drop 1

/-- Does this query parameter configure SSL (`ssl` or `sslmode` key)? -/
def isSSLSeg (seg : Str) : Bool := keyOf seg = str "ssl" || keyOf seg = str "sslmode"

/-- The `ssl`/`sslmode` parameters of a URL's query part, in order. -/
def sslSegs (s : Str) : List Str :=
  (splitOnChar '&' (queryPart s)).filter isSSLSeg

/-- The first query parameter with the given key, as `URLSearchParams.get`. -/
def searchParamGet (s : Str) (key : Str) : Option Str :=
  ((splitOnChar '&' (queryPart s)).find? (fun seg => keyOf seg = key)).map valOf

/-- Scanner: does the string contain an occurrence of `[?&]ssl(mode)?=`, i.e.
a key=value `ssl`/`sslmode` query parameter start? -/
def hasSSLAssign : Str → Bool
  | [] => false
  | c :: r =>
    (delim c && (startsW (str "sslmode=") r || startsW (str "ssl=") r)) ||
      hasSSLAssign r

/-- Is the string empty or headed by a parameter delimiter? -/
def endOrDelim : Str → Bool
  | [] => true
  | c :: _ => delim c

/-- After a delimiter, does a bare (value-less) `ssl` or `sslmode` token
follow, terminated by another delimiter or the end of the string? -/
def bareAfter (r : Str) : Bool :=
  (startsW (str "sslmode") r && endOrDelim (r.drop 7)) ||
    (startsW (str "ssl") r && endOrDelim (r.drop 3))

/-- Scanner: does the string contain a bare `ssl`/`sslmode` token (one written
without `=`, which the stripping regex cannot remove)? -/
def hasBareSSL : Str → Bool
  | [] => false
  | c :: r => (delim c && bareAfter r) || hasBareSSL r

/-! ## Environment interpolation (`parseEnvVariables`) -/

/-- First character class of a `$NAME` variable (`[A-Z_]`). -/
def isVarStart (c : Char) : Bool := c.isUpper || c = '_'

/-- Trailing character class of a `$NAME` variable (`[A-Z0-9_]`). -/
def isVarChar (c : Char) : Bool := c.isUpper || c.isDigit || c = '_'

/-- Fuel-driven worker for the regex replace
`str.replace(/\$\{([^}]+)\}|\$([A-Z_][A-Z0-9_]*)/g, ...)`: each match is
replaced by `process.env[varName] || match` (so a missing variable, or one
set to the empty string, leaves the matched text verbatim).  The environment
is passed in as an association list. -/
def interpGo (env : List (Str × Str)) : Nat → Str → Str
  | 0, s => s
  | fuel + 1, s =>
    match s with
    | [] => []
    | '$' :: r =>
      match r with
      | '{' :: r2 =>
        let name := r2.takeWhile (fun c => c ≠ '}')
        (match r2.dropWhile (fun c => c ≠ '}') with
         | '}' :: after =>
           if name.isEmpty then '$' :: interpGo env fuel r
           else
             (match recordLookup env name with
              | some v =>
                if v.isEmpty then
                  '$' :: '{' :: (name ++ '}' :: interpGo env fuel after)
                else v ++ interpGo env fuel after
              | none => '$' :: '{' :: (name ++ '}' :: interpGo env fuel after))
         | _ => '$' :: interpGo env fuel r)
      | c :: r2 =>
        if isVarStart c then
          let name := c :: r2.takeWhile isVarChar
          let after := r2.dropWhile isVarChar
          match recordLookup env name with
          | some v =>
            if v.isEmpty then '$' :: (name ++ interpGo env fuel after)
            else v ++ interpGo env fuel after
          | none => '$' :: (name ++ interpGo env fuel after)
        else '$' :: interpGo env fuel r
      | [] => ['$']
    | c :: r => c :: interpGo env fuel r

/-- Embedding of `parseEnvVariables` (`src/utils/env.ts`); the `.env` sidecar
loading is folded into the `env` parameter. -/
def parseEnvVariables (env : List (Str × Str)) (s : Str) : Str :=
  interpGo env s.length s

/-! ## Error taxonomy (`src/utils/errors.ts`)

Thrown errors are embedded by their classification; the carried message text
is kept only where an operation's callers branch on it. -/

inductive SchibaErr where
  | validationError (msg : Str)
  | noConnectionError
  | noDefaultError
  | connectionNotFoundError (tag : Str)
deriving DecidableEq

/-! ## Registry data model (`src/config/types.ts`) -/

/-- One stored connection.  Timestamps are opaque strings supplied by the
caller (`new Date().toISOString()` in the source). -/
structure ConnectionConfig where
  url : Str
  sslMode : Str
  schemas : Option (List Str)
  description : Option Str
  created : Str
  updatedAt : Option Str
  lastUsed : Option Str
deriving DecidableEq

/-- The registry: the `default` tag and the ordered `connections` record.
The `version` field and `preferences` are not modelled (no claim mentions
them). -/
structure ConfigFile where
  default : Option Str
  connections : List (Str × ConnectionConfig)
deriving DecidableEq

/-- Options of `add`; `ssl := some false` is the `--no-ssl` flag, `default`
collapses JavaScript truthiness of `options.default`. -/
structure AddOptions where
  ssl : Option Bool
  default : Bool
  description : Option Str
deriving DecidableEq

/-- Result record of tag generation. -/
structure TagGenerationResult where
  tag : Str
  wasConflictResolved : Bool
  originalTag : Option Str
deriving DecidableEq

/-! ## Tag generation

`src/utils/tag-generator.ts` is imported by the configuration manager but is
absent from the repository snapshot (only its callers survive), so this
component is modelled from the spec, §4.2. -/

/-- Decimal digit rendering. -/
def digitChar : Nat → Char
  | 0 => '0' | 1 => '1' | 2 => '2' | 3 => '3' | 4 => '4'
  | 5 => '5' | 6 => '6' | 7 => '7' | 8 => '8' | 9 => '9'
  | _ => '*'

/-- Fuel-driven decimal rendering of a natural number (most significant digit
first); `natChars` supplies adequate fuel. -/
def natCharsAux : Nat → Nat → List Char
  | 0, _ => []
  | fuel + 1, n =>
    if n < 10 then [digitChar n]
    else natCharsAux fuel (n / 10) ++ [digitChar (n % 10)]

/-- Decimal rendering of a natural number. -/
def natChars (n : Nat) : List Char := natCharsAux n n

/-- The candidate tag with an integer suffix: `name-1`, `name-2`, … -/
def suffixTag (cand : Str) (k : Nat) : Str := cand ++ '-' :: natChars k

/-- Modelled from the spec: walk `name-k`, `name-(k+1)`, … until a tag not in
the existing set is found.  The fuel only serves structural termination;
callers pass one more than the number of existing tags, which always
suffices. -/
def suffixSearch (existing : List Str) (cand : Str) : Nat → Nat → Str
  | 0, k => suffixTag cand k
  | fuel + 1, k =>
    if suffixTag cand k ∈ existing then suffixSearch existing cand fuel (k + 1)
    else suffixTag cand k

/-- The 24-symbol rotation used when no candidate tag is supplied. -/
def greekAlphabet : List Str :=
  [str "alpha", str "beta", str "gamma", str "delta", str "epsilon",
   str "zeta", str "eta", str "theta", str "iota", str "kappa",
   str "lambda", str "mu", str "nu", str "xi", str "omicron",
   str "pi", str "rho", str "sigma", str "tau", str "upsilon",
   str "phi", str "chi", str "psi", str "omega"]

/-- Modelled from the spec: candidate tags must be non-empty, contain no
whitespace, and be at most 50 characters. -/
def validCandidateTag (t : Str) : Bool :=
  !t.isEmpty && t.all (fun c => !c.isWhitespace) && decide (t.length ≤ 50)

/-- Modelled from the spec: `TagGenerator.getUniqueTag` (§4.2).  A valid unused
candidate is returned unchanged; a used one gets the first unused integer
suffix (`wasConflictResolved := true`, `originalTag` preserved); an invalid
one fails with a `ValidationError` before any generation; with no candidate,
the Greek rotation is walked in order, falling back to integer suffixes on its
first symbol once exhausted. -/
def TagGenerator.getUniqueTag (existing : List Str) (candidate : Option Str) :
    Except SchibaErr TagGenerationResult :=
  match candidate with
  | some cand =>
    if !validCandidateTag cand then
      .error (.validationError (str "Invalid tag"))
    else if cand ∈ existing then
      .ok { tag := suffixSearch existing cand (existing.length + 1) 1
            wasConflictResolved := true
            originalTag := some cand }
    else
      .ok { tag := cand, wasConflictResolved := false, originalTag := some cand }
  | none =>
    match greekAlphabet.find? (fun g => !existing.contains g) with
    | some g => .ok { tag := g, wasConflictResolved := false, originalTag := none }
    | none =>
      .ok { tag := suffixSearch existing (str "alpha") (existing.length + 1) 2
            wasConflictResolved := false
            originalTag := none }

/-! ## Configuration validation (`src/config/validator.ts`) -/

/-- Embedding of `validateConnectionString` (`src/utils/helpers.ts`): the
WHATWG `new URL(str)` acceptance test is modelled as `scheme://…host…` with a
non-empty scheme and a non-empty host (the authority after the last `@`,
before any `/`, `?` or `#`). -/
def validateConnectionString (s : Str) : Bool :=
  let scheme := s.takeWhile (fun c => c ≠ ':')
  match s.dropWhile (fun c => c ≠ ':') with
  | ':' :: '/' :: '/' :: r =>
    let authority := r.takeWhile (fun c => c ≠ '/' && c ≠ '?' && c ≠ '#')
    let host := (authority.reverse.takeWhile (fun c => c ≠ '@')).reverse
    !scheme.isEmpty && !host.isEmpty
  | _ => false

/-- Embedding of `ConfigValidator.validateConnectionConfig`. -/
def ConfigValidator.validateConnectionConfig (c : ConnectionConfig) : Bool :=
  !c.url.isEmpty && validateConnectionString c.url &&
    decide (c.sslMode ∈ validSSLModes)

/-- Embedding of `ConfigValidator.validateConfigFile` (its per-connection
validation and the default-must-exist check; the `version` check is not
modelled). -/
def ConfigValidator.validateConfigFile (cfg : ConfigFile) : Bool :=
  cfg.connections.all (fun p => ConfigValidator.validateConnectionConfig p.2) &&
    (match cfg.default with
     | some d => (recordLookup cfg.connections d).isSome
     | none => true)

/-- The default invariant: the registry's default tag, if set, names an
existing connection. -/
def validDefault (cfg : ConfigFile) : Prop :=
  ∀ d, cfg.default = some d → d ∈ recordKeys cfg.connections

/-- JavaScript `String.prototype.trim`. -/
def trimStr (s : Str) : Str :=
  ((s.dropWhile Char.isWhitespace).reverse.dropWhile Char.isWhitespace).reverse

/-! ## Configuration manager (`src/config/manager.ts`)

Every operation returns its result together with the post-call registry, so
that a failed operation demonstrably leaves the registry unchanged.  The
atomic rewrite of the file on disk (`saveConfig`) is identified with the
in-memory state. -/

namespace ConfigManager

/-- Embedding of `ConfigManager.generateUniqueTag`. -/
def generateUniqueTag (cfg : ConfigFile) (requested : Option Str) :
    Except SchibaErr TagGenerationResult :=
  TagGenerator.getUniqueTag (recordKeys cfg.connections) requested

/-- The `ConnectionConfig` literal built inside `add`. -/
def newConnection (connectionString : Str) (opts : AddOptions) (now : Str) :
    ConnectionConfig :=
  { url := connectionString
    sslMode := if opts.ssl = some false then str "disable" else str "prefer"
    schemas := none
    description := opts.description
    created := now
    updatedAt := none
    lastUsed := none }

/-- Embedding of `ConfigManager.add`: generate a unique tag, build the
connection, validate it, insert it, and promote it to default when it is the
first connection or `options.default` is set. -/
def add (cfg : ConfigFile) (tag : Option Str) (connectionString : Str)
    (opts : AddOptions) (now : Str) :
    Except SchibaErr (Str × TagGenerationResult) × ConfigFile :=
  match generateUniqueTag cfg tag with
  | .error e => (.error e, cfg)
  | .ok tagResult =>
    let finalTag := tagResult.tag
    let isFirstConnection := cfg.connections.isEmpty
    let connection := newConnection connectionString opts now
    if ConfigValidator.validateConnectionConfig connection then
      (.ok (finalTag, tagResult),
       { default :=
           if isFirstConnection || opts.default then some finalTag
           else cfg.default
         connections := recordSet cfg.connections finalTag connection })
    else (.error (.validationError (str "Invalid connection string format")), cfg)

/-- Embedding of `ConfigManager.remove`: delete the entry; if it was the
default, reassign the default to the first remaining connection, or clear it
when none remain. -/
def remove (cfg : ConfigFile) (tag : Str) :
    Except SchibaErr Unit × ConfigFile :=
  match recordLookup cfg.connections tag with
  | none => (.error (.connectionNotFoundError tag), cfg)
  | some _ =>
    let connections := recordDelete cfg.connections tag
    let dflt :=
      if cfg.default = some tag then (recordKeys connections).head?
      else cfg.default
    (.ok (), { default := dflt, connections := connections })

/-- Embedding of `ConfigManager.get`.  The JavaScript `tag ||
this.config.default` makes an empty-string tag fall back to the default.  On
success, `lastUsed` is stamped and persisted, the URL is interpolated, and
`schemas` is backfilled from the URL's `schema` query parameter when not set
structurally (the `new URL` normalization is modelled by the plain query-part
parser of this file). -/
def get (cfg : ConfigFile) (env : List (Str × Str)) (tag : Option Str)
    (now : Str) :
    Except SchibaErr (Str × ConnectionConfig) × ConfigFile :=
  if cfg.connections.isEmpty then (.error .noConnectionError, cfg)
  else
    let targetTag? :=
      match tag with
      | some t => if t.isEmpty then cfg.default else some t
      | none => cfg.default
    match targetTag? with
    | none => (.error .noDefaultError, cfg)
    | some targetTag =>
      match recordLookup cfg.connections targetTag with
      | none => (.error (.connectionNotFoundError targetTag), cfg)
      | some connection =>
        let stamped := { connection with lastUsed := some now }
        let cfg' :=
          { cfg with connections := recordSet cfg.connections targetTag stamped }
        let parsedUrl := parseEnvVariables env connection.url
        let schemas :=
          match stamped.schemas with
          | some ss => some ss
          | none =>
            match searchParamGet parsedUrl (str "schema") with
            | some v => some ((splitOnChar ',' v).map trimStr)
            | none => none
        (.ok (targetTag, { stamped with url := parsedUrl, schemas := schemas }),
         cfg')

/-- Embedding of `ConfigManager.renameTag`: existence check, then validation
of the trimmed new tag (empty, contains a space, longer than 50), then
conflict-resolving generation, then re-keying and default adjustment. -/
def renameTag (cfg : ConfigFile) (currentTag newTag : Str) (now : Str) :
    Except SchibaErr (Str × TagGenerationResult) × ConfigFile :=
  match recordLookup cfg.connections currentTag with
  | none => (.error (.connectionNotFoundError currentTag), cfg)
  | some connection =>
    if (trimStr newTag).isEmpty then
      (.error (.validationError (str "New tag cannot be empty")), cfg)
    else
      let sanitizedNewTag := trimStr newTag
      if (' ' : Char) ∈ sanitizedNewTag then
        (.error (.validationError (str "Tag cannot contain spaces")), cfg)
      else if sanitizedNewTag.length > 50 then
        (.error (.validationError (str "Tag must be 50 characters or less")), cfg)
      else
        match TagGenerator.getUniqueTag (recordKeys cfg.connections)
            (some sanitizedNewTag) with
        | .error e => (.error e, cfg)
        | .ok tagResult =>
          let finalTag := tagResult.tag
          let connection' := { connection with updatedAt := some now }
          let connections :=
            recordDelete (recordSet cfg.connections finalTag connection')
              currentTag
          let dflt :=
            if cfg.default = some currentTag then some finalTag
            else cfg.default
          (.ok (finalTag, tagResult),
           { default := dflt, connections := connections })

end ConfigManager

/-- One registry mutation, for reasoning over arbitrary `add`/`remove`
sequences. -/
inductive RegOp where
  | add (tag : Option Str) (url : Str) (opts : AddOptions) (now : Str)
  | remove (tag : Str)

/-- The registry state after one operation (a failed operation leaves the
state unchanged, as every throw in the source happens before the first
mutation). -/
def applyOp (cfg : ConfigFile) : RegOp → ConfigFile
  | .add t url opts now => (ConfigManager.add cfg t url opts now).2
  | .remove t => (ConfigManager.remove cfg t).2

/-- The registry state after a sequence of operations. -/
def runOps (cfg : ConfigFile) (ops : List RegOp) : ConfigFile :=
  ops.foldl applyOp cfg

/-! ## Concrete fixtures for witnesses and counterexamples -/

/-- A stored connection used by concrete scenarios. -/
def conn0 : ConnectionConfig :=
  { url := str "postgresql://h/db"
    sslMode := str "prefer"
    schemas := none
    description := none
    created := str "t0"
    updatedAt := none
    lastUsed := none }

/-- A registry holding one connection tagged `a`, which is the default. -/
def cfg0 : ConfigFile :=
  { default := some (str "a"), connections := [(str "a", conn0)] }

/-- A sampled Mongo collection whose two documents have disjoint fields. -/
def collA : SampledCollection :=
  { name := str "c"
    sample := [[(str "a", str "number")], [(str "b", str "string")]]
    indexes := [] }

/-- The analyzer's output entry for `collA`. -/
def outA : MongoCollection :=
  { collection := str "c"
    fields := [str "a", str "b"]
    types := [(str "a", [str "number", str "undefined"])]
    indexes := []
    sampleData := [(str "a", str "number")] }

/-- A sampled Mongo collection whose `$sample` returned no documents. -/
def collEmpty : SampledCollection :=
  { name := str "e", sample := [], indexes := [str "i1"] }

/-! ## Helper lemmas -/

/-- Looking up a key of `ks` in the record that tabulates `g` over `ks`
returns `g` at that key. -/
theorem recordLookup_tabulate {α : Type} (g : Str → α) (ks : List Str) (k : Str)
    (h : k ∈ ks) : recordLookup (ks.map fun k => (k, g k)) k = some (g k) := by
  induction ks with
  | nil => cases h
  | cons a ks ih =>
    rw [List.map_cons, recordLookup]
    by_cases hak : a = k
    · subst hak; simp
    · rw [if_neg hak]
      exact ih ((List.mem_cons.mp h).resolve_left (fun e => hak e.symm))

/-- The keys of the record that tabulates `g` over `ks` are exactly `ks`. -/
theorem map_fst_tabulate {α : Type} (g : Str → α) (ks : List Str) :
    (ks.map fun k => (k, g k)).map Prod.fst = ks := by
  induction ks with
  | nil => rfl
  | cons a ks ih => simp only [List.map_cons, ih]

/-- Setting a key makes it present. -/
theorem self_mem_recordKeys_recordSet {α : Type} (m : List (Str × α)) (k : Str)
    (v : α) : k ∈ recordKeys (recordSet m k v) := by
  induction m with
  | nil => exact List.mem_singleton.mpr rfl
  | cons p rest ih =>
    obtain ⟨k', v'⟩ := p
    rw [recordSet]
    by_cases hk : k' = k
    · rw [if_pos hk]; exact List.mem_cons_self _ _
    · rw [if_neg hk, recordKeys, List.map_cons]
      exact List.mem_cons_of_mem _ ih

/-- Setting a key preserves the presence of every key. -/
theorem mem_recordKeys_recordSet {α : Type} (m : List (Str × α)) (k : Str)
    (v : α) (d : Str) (h : d ∈ recordKeys m) :
    d ∈ recordKeys (recordSet m k v) := by
  induction m with
  | nil => cases h
  | cons p rest ih =>
    obtain ⟨k', v'⟩ := p
    rw [recordSet]
    by_cases hk : k' = k
    · rw [if_pos hk]
      rcases List.mem_cons.mp h with he | ht
      · exact List.mem_cons.mpr (Or.inl (he.trans hk))
      · exact List.mem_cons_of_mem _ ht
    · rw [if_neg hk, recordKeys, List.map_cons]
      rcases List.mem_cons.mp h with he | ht
      · exact List.mem_cons.mpr (Or.inl he)
      · exact List.mem_cons_of_mem _ (ih ht)

/-- Deleting one key preserves the presence of every other key. -/
theorem mem_recordKeys_recordDelete {α : Type} (m : List (Str × α)) (k d : Str)
    (hd : d ∈ recordKeys m) (hne : d ≠ k) :
    d ∈ recordKeys (recordDelete m k) := by
  induction m with
  | nil => cases hd
  | cons p rest ih =>
    obtain ⟨k', v'⟩ := p
    simp only [recordDelete] at ih ⊢
    rw [List.filter_cons]
    rcases List.mem_cons.mp hd with he | ht
    · subst he
      rw [if_pos (by simpa using hne)]
      exact List.mem_cons_self _ _
    · by_cases hk : k' = k
      · rw [if_neg (by simpa using hk)]
        exact ih ht
      · rw [if_pos (by simpa using hk)]
        exact List.mem_cons_of_mem _ (ih ht)

/-- Looking up a key just set returns the new value. -/
theorem recordLookup_recordSet_self {α : Type} (m : List (Str × α)) (k : Str)
    (v : α) : recordLookup (recordSet m k v) k = some v := by
  induction m with
  | nil => simp [recordSet, recordLookup]
  | cons p rest ih =>
    obtain ⟨k', v'⟩ := p
    rw [recordSet]
    by_cases hk : k' = k
    · rw [if_pos hk, recordLookup, if_pos rfl]
    · rw [if_neg hk, recordLookup, if_neg hk]
      exact ih

/-- Setting a fresh key does not disturb the lookup of another key. -/
theorem recordLookup_recordSet_other {α : Type} (m : List (Str × α))
    (k k' : Str) (v : α) (h : k' ≠ k) :
    recordLookup (recordSet m k v) k' = recordLookup m k' := by
  induction m with
  | nil => simp [recordSet, recordLookup, Ne.symm h]
  | cons p rest ih =>
    obtain ⟨a, b⟩ := p
    rw [recordSet]
    by_cases hak : a = k
    · rw [if_pos hak, recordLookup, recordLookup, if_neg (Ne.symm h),
        hak, if_neg (Ne.symm h)]
    · rw [if_neg hak, recordLookup, recordLookup]
      by_cases hak' : a = k'
      · rw [if_pos hak', if_pos hak']
      · rw [if_neg hak', if_neg hak']
        exact ih

/-- A key whose lookup succeeds is present. -/
theorem mem_recordKeys_of_lookup_isSome {α : Type} (m : List (Str × α))
    (k : Str) (h : (recordLookup m k).isSome = true) : k ∈ recordKeys m := by
  induction m with
  | nil => cases h
  | cons p rest ih =>
    obtain ⟨k', v'⟩ := p
    rw [recordLookup] at h
    by_cases hk : k' = k
    · exact hk ▸ List.mem_cons_self _ _
    · rw [if_neg hk] at h
      exact List.mem_cons_of_mem _ (ih h)

/-- A registry accepted by `ConfigValidator.validateConfigFile` satisfies the
default invariant. -/
theorem validDefault_of_validateConfigFile (cfg : ConfigFile)
    (h : ConfigValidator.validateConfigFile cfg = true) : validDefault cfg := by
  intro d hd
  rw [ConfigValidator.validateConfigFile, Bool.and_eq_true] at h
  rw [hd] at h
  exact mem_recordKeys_of_lookup_isSome _ _ h.2

/-- The head of a list, when it exists, is a member. -/
theorem mem_of_head?_eq {α : Type} (l : List α) (a : α)
    (h : l.head? = some a) : a ∈ l := by
  cases l with
  | nil => cases h
  | cons b t =>
    rw [List.head?_cons, Option.some.injEq] at h
    exact h ▸ List.mem_cons_self _ _

/-! ## C3: the SSL mode translation table -/

/-- C3: `buildSSLConfig` maps `disable` to TLS off; `allow`, `prefer` and
`require` all to TLS with peer-certificate validation disabled; `verify-ca`
to TLS with chain verification on but hostname verification suppressed; and
`verify-full` to TLS with chain verification on and hostname verification
enforced. -/
theorem buildSSLConfig_table :
    buildSSLConfig (str "disable") = .off ∧
    buildSSLConfig (str "allow") = .tls false false ∧
    buildSSLConfig (str "prefer") = .tls false false ∧
    buildSSLConfig (str "require") = .tls false false ∧
    buildSSLConfig (str "verify-ca") = .tls true true ∧
    buildSSLConfig (str "verify-full") = .tls true false := by
  decide

/-! ## C10: unrecognized SSL modes silently disable TLS -/

/-- C10: for every mode string that is not one of the six recognized SSL
modes, `buildSSLConfig` returns TLS-disabled, the same result as `disable`,
rather than raising an error. -/
theorem buildSSLConfig_unknown (m : Str) (h : m ∉ validSSLModes) :
    buildSSLConfig m = .off ∧ buildSSLConfig m = buildSSLConfig (str "disable") := by
  have h1 : ¬ m = str "disable" := fun e => h (by rw [e]; decide)
  have h2 : ¬ m = str "allow" := fun e => h (by rw [e]; decide)
  have h3 : ¬ m = str "prefer" := fun e => h (by rw [e]; decide)
  have h4 : ¬ m = str "require" := fun e => h (by rw [e]; decide)
  have h5 : ¬ m = str "verify-ca" := fun e => h (by rw [e]; decide)
  have h6 : ¬ m = str "verify-full" := fun e => h (by rw [e]; decide)
  refine ⟨?_, ?_⟩ <;>
    simp [buildSSLConfig, h1, h2, h3, h4, h5, h6]

/-- Witness for C10 at the unrecognized mode string `tls`. -/
theorem buildSSLConfig_unknown_witness :
    (str "tls") ∉ validSSLModes ∧ buildSSLConfig (str "tls") = .off :=
  ⟨by decide, (buildSSLConfig_unknown (str "tls") (by decide)).1⟩

/-! ## C8: an empty-sample collection is omitted and contributes nothing -/

/-- C8: a collection whose sample came back empty is skipped entirely:
removing it from the analyzer's input changes neither the extracted schema
nor the derived statistics. -/
theorem mongo_empty_sample_skipped (xs ys : List SampledCollection)
    (c : SampledCollection) (h : c.sample = []) :
    MongoAnalyzer.extractCollections (xs ++ c :: ys) =
      MongoAnalyzer.extractCollections (xs ++ ys) ∧
    MongoAnalyzer.calculateStats (MongoAnalyzer.extractCollections (xs ++ c :: ys)) =
      MongoAnalyzer.calculateStats (MongoAnalyzer.extractCollections (xs ++ ys)) := by
  have h1 : MongoAnalyzer.extractCollections (xs ++ c :: ys) =
      MongoAnalyzer.extractCollections (xs ++ ys) := by
    simp [MongoAnalyzer.extractCollections, List.filterMap_append,
      List.filterMap_cons, h]
  exact ⟨h1, by rw [h1]⟩

/-- Witness for C8: dropping the concrete empty-sample collection `collEmpty`
from the input leaves schema and statistics unchanged. -/
theorem mongo_empty_sample_skipped_witness :
    collEmpty.sample = [] ∧
    MongoAnalyzer.extractCollections ([] ++ collEmpty :: [collA]) =
      MongoAnalyzer.extractCollections ([] ++ [collA]) :=
  ⟨rfl, (mongo_empty_sample_skipped [] [collA] collEmpty rfl).1⟩

/-! ## C7: the per-collection `types` map -/

/-- C7 counterexample: for the collection `collA`, the field `b` is observed
(it is in `fields`, the union of keys across the sample) but the `types` map
has no entry for it, because `types` is tabulated over the keys of the first
sampled document only; moreover the entry for `a` records the tag
`undefined` contributed by the document in which `a` does not appear. -/
theorem mongo_types_counterexample :
    ∃ out ∈ MongoAnalyzer.extractCollections [collA],
      (str "b") ∈ out.fields ∧
      recordLookup out.types (str "b") = none ∧
      recordLookup out.types (str "a") = some [str "number", str "undefined"] := by
  decide

/-- C7 amended: every entry of the analyzer's result tabulates its `types`
map over the keys of the **first** sampled document, and the entry for such a
key is the deduplicated list of `typeof` tags the key exhibits across **all**
sampled documents, a document lacking the key contributing the tag
`undefined` (empty-string tags are dropped by `filter(Boolean)`). -/
theorem mongo_types_firstDoc (colls : List SampledCollection)
    (out : MongoCollection)
    (h : out ∈ MongoAnalyzer.extractCollections colls) :
    ∃ c ∈ colls, ∃ d0 rest, c.sample = d0 :: rest ∧
      out.collection = c.name ∧
      out.fields = ((c.sample.map docKeys).flatten).eraseDups ∧
      out.types.map Prod.fst = docKeys d0 ∧
      ∀ k ∈ docKeys d0,
        recordLookup out.types k =
          some (((c.sample.map (fun d => typeofField d k)).filter
                  (fun t => t ≠ str "")).eraseDups) := by
  rw [MongoAnalyzer.extractCollections, List.mem_filterMap] at h
  obtain ⟨c, hc, hf⟩ := h
  refine ⟨c, hc, ?_⟩
  cases hs : c.sample with
  | nil => rw [hs] at hf; exact absurd hf (by simp)
  | cons d0 rest =>
    rw [hs] at hf
    simp only [Option.some.injEq] at hf
    subst hf
    refine ⟨d0, rest, rfl, rfl, rfl, ?_, ?_⟩
    · exact map_fst_tabulate _ (docKeys d0)
    · intro k hk
      exact recordLookup_tabulate _ (docKeys d0) k hk

/-- Witness for C7 at the concrete collection `collA` and its output entry. -/
theorem mongo_types_firstDoc_witness :
    outA ∈ MongoAnalyzer.extractCollections [collA] ∧
    ∃ c ∈ [collA], ∃ d0 rest, c.sample = d0 :: rest ∧
      outA.collection = c.name ∧
      outA.fields = ((c.sample.map docKeys).flatten).eraseDups ∧
      outA.types.map Prod.fst = docKeys d0 ∧
      ∀ k ∈ docKeys d0,
        recordLookup outA.types k =
          some (((c.sample.map (fun d => typeofField d k)).filter
                  (fun t => t ≠ str "")).eraseDups) :=
  ⟨by decide, mongo_types_firstDoc [collA] outA (by decide)⟩

/-! ## C1: the default-tag invariant under add/remove sequences -/

/-- One `add` preserves the default invariant. -/
theorem validDefault_add (cfg : ConfigFile) (tag : Option Str) (url : Str)
    (opts : AddOptions) (now : Str) (h : validDefault cfg) :
    validDefault (ConfigManager.add cfg tag url opts now).2 := by
  unfold ConfigManager.add
  cases hgen : ConfigManager.generateUniqueTag cfg tag with
  | error e => exact h
  | ok tagResult =>
    dsimp only
    split
    · intro d hd
      dsimp only at hd
      split at hd
      · cases hd
        exact self_mem_recordKeys_recordSet _ _ _
      · exact mem_recordKeys_recordSet _ _ _ _ (h d hd)
    · exact h

/-- One `remove` preserves the default invariant. -/
theorem validDefault_remove (cfg : ConfigFile) (tag : Str)
    (h : validDefault cfg) :
    validDefault (ConfigManager.remove cfg tag).2 := by
  unfold ConfigManager.remove
  cases hlk : recordLookup cfg.connections tag with
  | none => exact h
  | some conn =>
    intro d hd
    dsimp only at hd ⊢
    split at hd
    · exact mem_of_head?_eq _ _ hd
    · rename_i hne
      refine mem_recordKeys_recordDelete _ _ _ (h d hd) ?_
      intro e
      exact hne (e ▸ hd)

/-- Every single operation preserves the default invariant. -/
theorem validDefault_applyOp (cfg : ConfigFile) (op : RegOp)
    (h : validDefault cfg) : validDefault (applyOp cfg op) := by
  cases op with
  | add t url opts now => exact validDefault_add cfg t url opts now h
  | remove t => exact validDefault_remove cfg t h

/-- C1: after any sequence of `add`/`remove` operations from a state whose
default tag points at an existing connection, the default tag still points at
an existing connection (or is unset); moreover `remove` on the current
default reassigns it to the first remaining connection in insertion order, or
clears it when none remain (`head?` of the remaining keys). -/
theorem default_invariant :
    (∀ (cfg : ConfigFile) (ops : List RegOp), validDefault cfg →
        validDefault (runOps cfg ops)) ∧
    (∀ (cfg : ConfigFile) (t : Str), cfg.default = some t →
        (recordLookup cfg.connections t).isSome = true →
        (ConfigManager.remove cfg t).1 = .ok () ∧
        (ConfigManager.remove cfg t).2.default =
          (recordKeys (recordDelete cfg.connections t)).head?) := by
  constructor
  · intro cfg ops h
    induction ops generalizing cfg with
    | nil => exact h
    | cons op ops ih =>
      exact ih (applyOp cfg op) (validDefault_applyOp cfg op h)
  · intro cfg t hdef hlk
    unfold ConfigManager.remove
    cases he : recordLookup cfg.connections t with
    | none => rw [he] at hlk; cases hlk
    | some conn => exact ⟨rfl, by dsimp only; rw [if_pos hdef]⟩

/-- Witness for C1: a two-operation sequence on the concrete one-connection
registry keeps the invariant, and removing its default hands the default to
the first remaining connection. -/
theorem default_invariant_witness :
    validDefault (runOps cfg0
      [RegOp.add (some (str "b")) (str "postgresql://h2/db2")
        { ssl := none, default := false, description := none } (str "t1"),
       RegOp.remove (str "a")]) ∧
    (ConfigManager.remove cfg0 (str "a")).2.default =
      (recordKeys (recordDelete cfg0.connections (str "a"))).head? :=
  ⟨default_invariant.1 cfg0 _ (validDefault_of_validateConfigFile cfg0 (by decide)),
   (default_invariant.2 cfg0 (str "a") rfl (by decide)).2⟩

/-! ## C4: failure modes of `get` -/

/-- C4 counterexample: the empty string is an explicit tag that names no
connection, yet `get("")` on the non-empty registry `cfg0` does not fail with
`ConnectionNotFoundError`: the JavaScript `tag || this.config.default`
treats `""` as absent and resolves the default connection instead. -/
theorem get_empty_tag_counterexample :
    recordLookup cfg0.connections [] = none ∧ cfg0.connections ≠ [] ∧
    (ConfigManager.get cfg0 [] (some []) (str "t1")).1 =
      .ok (str "a", { conn0 with lastUsed := some (str "t1") }) := by
  decide

/-- C4 amended: on an empty registry `get` fails with `NoConnectionError`
whether or not a tag is given; on a non-empty registry a **non-empty**
explicit tag that names no connection fails with `ConnectionNotFoundError`;
in both failure cases the registry state is returned unchanged. -/
theorem get_failure_modes :
    (∀ (cfg : ConfigFile) (env : List (Str × Str)) (tagArg : Option Str)
        (now : Str), cfg.connections = [] →
        ConfigManager.get cfg env tagArg now = (.error .noConnectionError, cfg)) ∧
    (∀ (cfg : ConfigFile) (env : List (Str × Str)) (t now : Str),
        cfg.connections ≠ [] → t ≠ [] →
        recordLookup cfg.connections t = none →
        ConfigManager.get cfg env (some t) now =
          (.error (.connectionNotFoundError t), cfg)) := by
  constructor
  · intro cfg env tagArg now h
    unfold ConfigManager.get
    rw [if_pos (List.isEmpty_iff.mpr h)]
  · intro cfg env t now hne ht hlk
    unfold ConfigManager.get
    rw [if_neg (by simpa using List.isEmpty_iff.not.mpr hne)]
    have hte : t.isEmpty = false := by
      cases t with
      | nil => exact absurd rfl ht
      | cons a b => rfl
    simp [hte, hlk]

/-- Witness for C4: both failure modes at concrete registries. -/
theorem get_failure_modes_witness :
    ConfigManager.get { default := none, connections := [] } [] none (str "t1") =
      (.error .noConnectionError, { default := none, connections := [] }) ∧
    ConfigManager.get cfg0 [] (some (str "x")) (str "t1") =
      (.error (.connectionNotFoundError (str "x")), cfg0) :=
  ⟨get_failure_modes.1 _ [] none (str "t1") rfl,
   get_failure_modes.2 cfg0 [] (str "x") (str "t1") (by decide) (by decide)
     (by decide)⟩

/-! ## C5: what `add` stores -/

/-- C5: after a successful `add`, the stored connection's `sslMode` is
`disable` exactly when SSL was disabled in the options (`ssl: false`) and
`prefer` otherwise, and when the registry was empty beforehand the new
connection becomes the default regardless of the `default` option. -/
theorem add_stores_sslMode_and_default (cfg : ConfigFile) (tag : Option Str)
    (url : Str) (opts : AddOptions) (now ft : Str)
    (tr : TagGenerationResult) (cfg' : ConfigFile)
    (h : ConfigManager.add cfg tag url opts now = (.ok (ft, tr), cfg')) :
    ∃ conn, recordLookup cfg'.connections ft = some conn ∧
      (conn.sslMode = str "disable" ↔ opts.ssl = some false) ∧
      (opts.ssl ≠ some false → conn.sslMode = str "prefer") ∧
      (cfg.connections = [] → cfg'.default = some ft) := by
  unfold ConfigManager.add at h
  cases hgen : ConfigManager.generateUniqueTag cfg tag with
  | error e => rw [hgen] at h; cases h
  | ok tagResult =>
    rw [hgen] at h
    dsimp only at h
    split at h
    · rw [Prod.mk.injEq, Except.ok.injEq, Prod.mk.injEq] at h
      obtain ⟨⟨hft, htr⟩, hcfg⟩ := h
      subst hft hcfg
      refine ⟨ConfigManager.newConnection url opts now,
        recordLookup_recordSet_self _ _ _, ?_, ?_, ?_⟩
      · unfold ConfigManager.newConnection
        by_cases hssl : opts.ssl = some false
        · simp [hssl]
        · simp only [if_neg hssl]
          constructor
          · intro e; exact absurd e (by decide)
          · intro e; exact absurd e hssl
      · intro hssl
        unfold ConfigManager.newConnection
        simp [if_neg hssl]
      · intro hemp
        dsimp only
        rw [if_pos]
        rw [List.isEmpty_iff.mpr hemp]
        rfl
    · cases h

/-- Witness for C5: a successful concrete `add` on the empty registry. -/
theorem add_stores_sslMode_and_default_witness :
    ∃ conn,
      recordLookup
        (ConfigManager.add { default := none, connections := [] }
          (some (str "prod")) (str "postgresql://u:p@host:5432/db")
          { ssl := none, default := false, description := none }
          (str "t1")).2.connections (str "prod") = some conn ∧
      (conn.sslMode = str "disable" ↔
        ({ ssl := none, default := false, description := none } : AddOptions).ssl
          = some false) ∧
      (({ ssl := none, default := false, description := none } : AddOptions).ssl
          ≠ some false → conn.sslMode = str "prefer") ∧
      (({ default := none, connections := [] } : ConfigFile).connections = [] →
        (ConfigManager.add { default := none, connections := [] }
          (some (str "prod")) (str "postgresql://u:p@host:5432/db")
          { ssl := none, default := false, description := none }
          (str "t1")).2.default = some (str "prod")) :=
  add_stores_sslMode_and_default { default := none, connections := [] }
    (some (str "prod")) (str "postgresql://u:p@host:5432/db")
    { ssl := none, default := false, description := none } (str "t1")
    (str "prod")
    { tag := str "prod", wasConflictResolved := false,
      originalTag := some (str "prod") }
    (ConfigManager.add { default := none, connections := [] }
      (some (str "prod")) (str "postgresql://u:p@host:5432/db")
      { ssl := none, default := false, description := none } (str "t1")).2
    (by decide)

/-! ## C6: conflict-resolving tag generation -/

/-- The decimal digit characters are pairwise distinct. -/
theorem digitChar_inj (a b : Nat) (ha : a < 10) (hb : b < 10)
    (h : digitChar a = digitChar b) : a = b := by
  interval_cases a <;> interval_cases b <;> simp_all [digitChar]

/-- With positive fuel, the decimal rendering is never empty. -/
theorem natCharsAux_ne_nil (fuel n : Nat) : natCharsAux (fuel + 1) n ≠ [] := by
  rw [natCharsAux]
  split <;> simp

/-- The decimal rendering does not depend on the fuel, as long as the fuel is
adequate. -/
theorem natCharsAux_stable (n : Nat) : ∀ f g, 1 ≤ n → n ≤ f → n ≤ g →
    natCharsAux f n = natCharsAux g n := by
  induction n using Nat.strong_induction_on with
  | _ n ih =>
    intro f g h1 hf hg
    obtain ⟨f', rfl⟩ : ∃ x, f = x + 1 := ⟨f - 1, by omega⟩
    obtain ⟨g', rfl⟩ : ∃ x, g = x + 1 := ⟨g - 1, by omega⟩
    rw [natCharsAux, natCharsAux]
    by_cases hn : n < 10
    · rw [if_pos hn, if_pos hn]
    · rw [if_neg hn, if_neg hn]
      have hdiv : n / 10 < n := Nat.div_lt_self (by omega) (by omega)
      have h10 : 1 ≤ n / 10 := Nat.one_le_div_iff (by omega) |>.mpr (by omega)
      rw [ih (n / 10) hdiv f' g' h10 (by omega) (by omega)]

/-- Decimal rendering is injective on positive numbers. -/
theorem natChars_inj : ∀ a, 1 ≤ a → ∀ b, 1 ≤ b →
    natChars a = natChars b → a = b := by
  intro a
  induction a using Nat.strong_induction_on with
  | _ a ih =>
    intro ha b hb h
    obtain ⟨a', rfl⟩ : ∃ x, a = x + 1 := ⟨a - 1, by omega⟩
    obtain ⟨b', rfl⟩ : ∃ x, b = x + 1 := ⟨b - 1, by omega⟩
    rw [natChars, natChars, natCharsAux, natCharsAux] at h
    by_cases h10a : a' + 1 < 10 <;> by_cases h10b : b' + 1 < 10
    · rw [if_pos h10a, if_pos h10b] at h
      exact digitChar_inj _ _ h10a h10b (List.singleton_injective h)
    · rw [if_pos h10a, if_neg h10b] at h
      obtain ⟨b'', rfl⟩ : ∃ x, b' = x + 1 := ⟨b' - 1, by omega⟩
      cases hx : natCharsAux (b'' + 1) ((b'' + 1 + 1) / 10) with
      | nil => exact absurd hx (natCharsAux_ne_nil _ _)
      | cons c cs =>
        rw [hx] at h
        have hlen := congrArg List.length h
        rw [List.length_append] at hlen
        simp only [List.length_singleton, List.length_cons] at hlen
        omega
    · rw [if_neg h10a, if_pos h10b] at h
      obtain ⟨a'', rfl⟩ : ∃ x, a' = x + 1 := ⟨a' - 1, by omega⟩
      cases hx : natCharsAux (a'' + 1) ((a'' + 1 + 1) / 10) with
      | nil => exact absurd hx (natCharsAux_ne_nil _ _)
      | cons c cs =>
        rw [hx] at h
        have hlen := congrArg List.length h
        rw [List.length_append] at hlen
        simp only [List.length_singleton, List.length_cons] at hlen
        omega
    · rw [if_neg h10a, if_neg h10b] at h
      have h' := congrArg List.reverse h
      simp only [List.reverse_append, List.reverse_cons, List.reverse_nil,
        List.nil_append, List.singleton_append] at h'
      obtain ⟨hhd, htl⟩ := List.cons.injEq _ _ _ _ ▸ h'
      have hmod : (a' + 1) % 10 = (b' + 1) % 10 :=
        digitChar_inj _ _ (Nat.mod_lt _ (by omega)) (Nat.mod_lt _ (by omega)) hhd
      have hX : natCharsAux a' ((a' + 1) / 10) = natCharsAux b' ((b' + 1) / 10) :=
        List.reverse_injective htl
      have hda : 1 ≤ (a' + 1) / 10 := Nat.one_le_div_iff (by omega) |>.mpr (by omega)
      have hdb : 1 ≤ (b' + 1) / 10 := Nat.one_le_div_iff (by omega) |>.mpr (by omega)
      have hsa : natCharsAux a' ((a' + 1) / 10) = natChars ((a' + 1) / 10) :=
        natCharsAux_stable _ _ _ hda (by omega) (le_refl _)
      have hsb : natCharsAux b' ((b' + 1) / 10) = natChars ((b' + 1) / 10) :=
        natCharsAux_stable _ _ _ hdb (by omega) (le_refl _)
      have hdiv : (a' + 1) / 10 = (b' + 1) / 10 :=
        ih ((a' + 1) / 10) (Nat.div_lt_self (by omega) (by omega)) hda _ hdb
          (by rw [← hsa, ← hsb, hX])
      omega

/-- Integer-suffixed tags with distinct positive suffixes are distinct. -/
theorem suffixTag_inj (cand : Str) (j k : Nat) (hj : 1 ≤ j) (hk : 1 ≤ k)
    (h : suffixTag cand j = suffixTag cand k) : j = k := by
  unfold suffixTag at h
  have h2 := List.append_cancel_left h
  rw [List.cons.injEq] at h2
  exact natChars_inj j hj k hk h2.2

/-- Pigeonhole: among the first `existing.length + 1` integer suffixes of a
candidate, at least one yields a tag not in the existing set. -/
theorem exists_free_suffix (existing : List Str) (cand : Str) :
    ∃ k, 1 ≤ k ∧ k ≤ existing.length + 1 ∧ suffixTag cand k ∉ existing := by
  by_contra hcon
  push_neg at hcon
  have hinj : Set.InjOn (suffixTag cand)
      (Finset.Icc 1 (existing.length + 1)) := by
    intro x hx y hy hxy
    rw [Finset.coe_Icc, Set.mem_Icc] at hx hy
    exact suffixTag_inj cand x y hx.1 hy.1 hxy
  have hsub : (Finset.Icc 1 (existing.length + 1)).image (suffixTag cand) ⊆
      existing.toFinset := by
    intro t ht
    rw [Finset.mem_image] at ht
    obtain ⟨k, hk, rfl⟩ := ht
    rw [List.mem_toFinset]
    exact hcon k (Finset.mem_Icc.mp hk).1 (Finset.mem_Icc.mp hk).2
  have hcard := Finset.card_le_card hsub
  rw [Finset.card_image_of_injOn hinj, Nat.card_Icc] at hcard
  have := List.toFinset_card_le existing
  omega

/-- The suffix search, given adequate fuel and the existence of a free suffix
within reach, returns the least free suffix. -/
theorem suffixSearch_least (existing : List Str) (cand : Str) :
    ∀ fuel start, 1 ≤ start →
    (∃ j, start ≤ j ∧ j < start + fuel ∧ suffixTag cand j ∉ existing) →
    ∃ k, suffixSearch existing cand fuel start = suffixTag cand k ∧
      start ≤ k ∧ suffixTag cand k ∉ existing ∧
      ∀ j, start ≤ j → j < k → suffixTag cand j ∈ existing := by
  intro fuel
  induction fuel with
  | zero =>
    rintro start h1 ⟨j, hj1, hj2, -⟩
    omega
  | succ fuel ih =>
    intro start h1 hex
    rw [suffixSearch]
    by_cases hmem : suffixTag cand start ∈ existing
    · rw [if_pos hmem]
      obtain ⟨j, hj1, hj2, hj3⟩ := hex
      have hjs : start + 1 ≤ j := by
        rcases Nat.eq_or_lt_of_le hj1 with he | hl
        · exact absurd (he ▸ hmem) hj3
        · omega
      obtain ⟨k, hk1, hk2, hk3, hk4⟩ :=
        ih (start + 1) (by omega) ⟨j, hjs, by omega, hj3⟩
      refine ⟨k, hk1, by omega, hk3, ?_⟩
      intro j' hj'1 hj'2
      rcases Nat.eq_or_lt_of_le hj'1 with he | hl
      · exact he ▸ hmem
      · exact hk4 j' hl hj'2
    · rw [if_neg hmem]
      exact ⟨start, rfl, le_refl _, hmem, fun j hj1 hj2 => absurd hj1 (by omega)⟩

/-- A valid but already-used candidate makes `getUniqueTag` return the least
free integer-suffixed tag, flagged as a resolved conflict with the original
candidate preserved. -/
theorem getUniqueTag_conflict (existing : List Str) (cand : Str)
    (hv : validCandidateTag cand = true) (hmem : cand ∈ existing) :
    ∃ k, 1 ≤ k ∧
      TagGenerator.getUniqueTag existing (some cand) =
        .ok { tag := suffixTag cand k, wasConflictResolved := true,
              originalTag := some cand } ∧
      suffixTag cand k ∉ existing ∧
      ∀ j, 1 ≤ j → j < k → suffixTag cand j ∈ existing := by
  obtain ⟨j, hj1, hj2, hj3⟩ := exists_free_suffix existing cand
  obtain ⟨k, hk1, hk2, hk3, hk4⟩ :=
    suffixSearch_least existing cand (existing.length + 1) 1 (le_refl 1)
      ⟨j, hj1, by omega, hj3⟩
  have heq : TagGenerator.getUniqueTag existing (some cand) =
      .ok { tag := suffixSearch existing cand (existing.length + 1) 1,
            wasConflictResolved := true, originalTag := some cand } := by
    simp [TagGenerator.getUniqueTag, hv, hmem]
  exact ⟨k, hk2, by rw [heq, hk1], hk3, hk4⟩

/-- Default-free `add` options used by concrete scenarios. -/
def addOpts0 : AddOptions := { ssl := none, default := false, description := none }

/-- C6: calling `add` with a candidate tag that is already in use never
overwrites the existing connection: the operation stores the new connection
under the least unused `candidate-k` tag, reports `wasConflictResolved` with
the original candidate, and leaves the existing connection's entry untouched;
concretely, `add("prod", u1)` then `add("prod", u2)` gives the second call
the final tag `prod-1`. -/
theorem add_conflict_resolution :
    (∀ (cfg : ConfigFile) (cand url : Str) (opts : AddOptions) (now : Str),
      validCandidateTag cand = true →
      cand ∈ recordKeys cfg.connections →
      ConfigValidator.validateConnectionConfig
        (ConfigManager.newConnection url opts now) = true →
      ∃ k, 1 ≤ k ∧
        ConfigManager.add cfg (some cand) url opts now =
          (.ok (suffixTag cand k,
             { tag := suffixTag cand k, wasConflictResolved := true,
               originalTag := some cand }),
           { default :=
               if cfg.connections.isEmpty || opts.default then
                 some (suffixTag cand k)
               else cfg.default
             connections := recordSet cfg.connections (suffixTag cand k)
               (ConfigManager.newConnection url opts now) }) ∧
        suffixTag cand k ∉ recordKeys cfg.connections ∧
        (∀ j, 1 ≤ j → j < k → suffixTag cand j ∈ recordKeys cfg.connections) ∧
        recordLookup
          (ConfigManager.add cfg (some cand) url opts now).2.connections cand =
          recordLookup cfg.connections cand) ∧
    (ConfigManager.add
        (ConfigManager.add { default := none, connections := [] }
          (some (str "prod")) (str "postgresql://u:p@host:5432/db") addOpts0
          (str "t1")).2
        (some (str "prod")) (str "postgresql://u:p@host2/db2") addOpts0
        (str "t2")).1 =
      .ok (str "prod-1",
        { tag := str "prod-1", wasConflictResolved := true,
          originalTag := some (str "prod") }) := by
  constructor
  · intro cfg cand url opts now hv hmem hvc
    obtain ⟨k, hk1, heq, hfree, hleast⟩ :=
      getUniqueTag_conflict (recordKeys cfg.connections) cand hv hmem
    have hadd : ConfigManager.add cfg (some cand) url opts now =
        (.ok (suffixTag cand k,
           { tag := suffixTag cand k, wasConflictResolved := true,
             originalTag := some cand }),
         { default :=
             if cfg.connections.isEmpty || opts.default then
               some (suffixTag cand k)
             else cfg.default
           connections := recordSet cfg.connections (suffixTag cand k)
             (ConfigManager.newConnection url opts now) }) := by
      unfold ConfigManager.add ConfigManager.generateUniqueTag
      rw [heq]
      dsimp only
      rw [if_pos hvc]
    refine ⟨k, hk1, hadd, hfree, hleast, ?_⟩
    rw [hadd]
    dsimp only
    exact recordLookup_recordSet_other _ _ _ _
      (fun e => hfree (e ▸ hmem))
  · decide

/-- Witness for C6: adding the already-used candidate `a` to the one-connection
registry `cfg0`. -/
theorem add_conflict_resolution_witness :
    ∃ k, 1 ≤ k ∧
      ConfigManager.add cfg0 (some (str "a")) (str "postgresql://h2/db2")
        addOpts0 (str "t1") =
        (.ok (suffixTag (str "a") k,
           { tag := suffixTag (str "a") k, wasConflictResolved := true,
             originalTag := some (str "a") }),
         { default :=
             if cfg0.connections.isEmpty || addOpts0.default then
               some (suffixTag (str "a") k)
             else cfg0.default
           connections := recordSet cfg0.connections (suffixTag (str "a") k)
             (ConfigManager.newConnection (str "postgresql://h2/db2") addOpts0
               (str "t1")) }) ∧
      suffixTag (str "a") k ∉ recordKeys cfg0.connections ∧
      (∀ j, 1 ≤ j → j < k → suffixTag (str "a") j ∈ recordKeys cfg0.connections) ∧
      recordLookup
        (ConfigManager.add cfg0 (some (str "a")) (str "postgresql://h2/db2")
          addOpts0 (str "t1")).2.connections (str "a") =
        recordLookup cfg0.connections (str "a") :=
  add_conflict_resolution.1 cfg0 (str "a") (str "postgresql://h2/db2") addOpts0
    (str "t1") (by decide) (by decide) (by decide)

/-! ## C9: candidate-tag validation -/

/-- Characterization of candidate-tag validity. -/
theorem validCandidateTag_iff (t : Str) :
    validCandidateTag t = true ↔
      (t ≠ [] ∧ (∀ c ∈ t, c.isWhitespace = false) ∧ t.length ≤ 50) := by
  simp only [validCandidateTag, Bool.and_eq_true, Bool.not_eq_true',
    List.isEmpty_eq_false_iff_exists_mem, List.all_eq_true, Bool.not_eq_true,
    decide_eq_true_eq]
  constructor
  · rintro ⟨⟨h1, h2⟩, h3⟩
    exact ⟨(by rintro rfl; obtain ⟨x, hx⟩ := h1; cases hx), h2, h3⟩
  · rintro ⟨h1, h2, h3⟩
    refine ⟨⟨?_, h2⟩, h3⟩
    cases t with
    | nil => exact absurd rfl h1
    | cons a r => exact ⟨a, List.mem_cons_self _ _⟩

/-- C9 counterexample: the rename candidate `" b "` contains whitespace, yet
renaming succeeds — `renameTag` trims the candidate before validating it and
stores the connection under the trimmed tag `b`. -/
theorem rename_trim_counterexample :
    (∃ c ∈ (str " b "), c.isWhitespace = true) ∧
    ConfigManager.renameTag cfg0 (str "a") (str " b ") (str "t1") =
      (.ok (str "b",
        { tag := str "b", wasConflictResolved := false,
          originalTag := some (str "b") }),
       { default := some (str "b"),
         connections :=
           [(str "b", { conn0 with updatedAt := some (str "t1") })] }) := by
  decide

/-- C9 amended: in `add`, a candidate that is empty, contains whitespace, or
is longer than 50 characters fails with a `ValidationError` before any
generation or mutation; in `renameTag`, the candidate is first trimmed of
surrounding whitespace and the **trimmed** candidate is validated — if it is
empty, contains whitespace, or exceeds 50 characters the rename fails with a
`ValidationError` and the registry is unchanged. -/
theorem tag_validation :
    (∀ (cfg : ConfigFile) (cand url : Str) (opts : AddOptions) (now : Str),
      validCandidateTag cand = false →
      ConfigManager.add cfg (some cand) url opts now =
        (.error (.validationError (str "Invalid tag")), cfg)) ∧
    (∀ (cfg : ConfigFile) (cur t now : Str),
      (recordLookup cfg.connections cur).isSome = true →
      (trimStr t = [] ∨ (∃ c ∈ trimStr t, c.isWhitespace = true) ∨
        50 < (trimStr t).length) →
      ∃ msg, ConfigManager.renameTag cfg cur t now =
        (.error (.validationError msg), cfg)) := by
  constructor
  · intro cfg cand url opts now hv
    simp [ConfigManager.add, ConfigManager.generateUniqueTag,
      TagGenerator.getUniqueTag, hv]
  · intro cfg cur t now hcur hbad
    cases hlk : recordLookup cfg.connections cur with
    | none => rw [hlk] at hcur; cases hcur
    | some conn =>
      unfold ConfigManager.renameTag
      rw [hlk]
      dsimp only
      by_cases h1 : (trimStr t).isEmpty = true
      · rw [if_pos h1]; exact ⟨_, rfl⟩
      · rw [if_neg h1]
        by_cases h2 : (' ' : Char) ∈ trimStr t
        · rw [if_pos h2]; exact ⟨_, rfl⟩
        · rw [if_neg h2]
          by_cases h3 : (trimStr t).length > 50
          · rw [if_pos h3]; exact ⟨_, rfl⟩
          · rw [if_neg h3]
            have hv : validCandidateTag (trimStr t) = false := by
              cases hvc : validCandidateTag (trimStr t) with
              | false => rfl
              | true =>
                obtain ⟨hne, hws, hlen⟩ := (validCandidateTag_iff _).mp hvc
                rcases hbad with hb | hb | hb
                · exact absurd hb hne
                · obtain ⟨c, hc1, hc2⟩ := hb
                  rw [hws c hc1] at hc2
                  cases hc2
                · omega
            simp [TagGenerator.getUniqueTag, hv]

/-- Witness for C9: an invalid `add` candidate and an invalid rename
candidate both fail with a `ValidationError`, leaving the registry unchanged. -/
theorem tag_validation_witness :
    ConfigManager.add cfg0 (some (str "a b")) (str "postgresql://h/db")
      addOpts0 (str "t1") =
      (.error (.validationError (str "Invalid tag")), cfg0) ∧
    ∃ msg, ConfigManager.renameTag cfg0 (str "a") (str "a b") (str "t1") =
      (.error (.validationError msg), cfg0) :=
  ⟨tag_validation.1 cfg0 (str "a b") (str "postgresql://h/db") addOpts0
    (str "t1") (by decide),
   tag_validation.2 cfg0 (str "a") (str "a b") (str "t1") (by decide)
     (Or.inr (Or.inl ⟨' ', by decide, by decide⟩))⟩

/-! ## C2: SSL augmentation round-trip

The development follows the structure of `appendSSLToConnectionString`: first
the properties of the stripping pass (`stripGo`), then the re-parsing of the
augmented URL's query parameters. -/

/-- Out of fuel or not, stripping the empty string yields the empty string. -/
theorem stripGo_nil (fuel : Nat) : stripGo fuel [] = [] := by
  cases fuel <;> rfl

/-- Dropping a leading segment cannot lengthen a list. -/
theorem length_dropWhile_le' (p : Char → Bool) (l : Str) :
    (l.dropWhile p).length ≤ l.length := by
  induction l with
  | nil => exact le_refl _
  | cons c r ih =>
    rw [List.dropWhile_cons]
    by_cases hc : p c = true
    · rw [if_pos hc, List.length_cons]
      omega
    · rw [if_neg hc]

/-- A string is acceptable as a stripping result head: empty or headed by a
parameter delimiter or headed by the very character the input started with.
This is the shape invariant used below. -/
def headDelimOrNil (s : Str) : Prop :=
  s = [] ∨ ∃ d r, s = d :: r ∧ delim d = true

/-- What remains after dropping to the next `&` is empty or `&`-headed. -/
theorem headDelimOrNil_dropAmp (l : Str) :
    headDelimOrNil (l.dropWhile (fun c => c ≠ '&')) := by
  induction l with
  | nil => exact Or.inl rfl
  | cons a l ih =>
    rw [List.dropWhile_cons]
    by_cases ha : a = '&'
    · rw [if_neg (by simp [ha])]
      exact Or.inr ⟨a, l, rfl, by simp [delim, ha]⟩
    · rw [if_pos (by simp [ha])]
      exact ih

/-- Stripping a delimiter-headed (or empty) string yields a delimiter-headed
or empty string. -/
theorem stripGo_headDelimOrNil (fuel : Nat) : ∀ s, s.length ≤ fuel →
    headDelimOrNil s → headDelimOrNil (stripGo fuel s) := by
  induction fuel with
  | zero => intro s _ h; exact h
  | succ fuel ih =>
    intro s hlen h
    rcases h with rfl | ⟨d, r, rfl, hd⟩
    · exact Or.inl (stripGo_nil _)
    · rw [stripGo]
      by_cases h1 : (delim d && startsW (str "sslmode=") r) = true
      · rw [if_pos h1]
        refine ih _ ?_ (headDelimOrNil_dropAmp _)
        calc ((r.drop 8).dropWhile (fun c => c ≠ '&')).length
            ≤ (r.drop 8).length := length_dropWhile_le' _ _
          _ ≤ r.length := by rw [List.length_drop]; omega
          _ ≤ fuel := by simpa using hlen
      · rw [if_neg h1]
        by_cases h2 : (delim d && startsW (str "ssl=") r) = true
        · rw [if_pos h2]
          refine ih _ ?_ (headDelimOrNil_dropAmp _)
          calc ((r.drop 4).dropWhile (fun c => c ≠ '&')).length
              ≤ (r.drop 4).length := length_dropWhile_le' _ _
            _ ≤ r.length := by rw [List.length_drop]; omega
            _ ≤ fuel := by simpa using hlen
        · rw [if_neg h2]
          exact Or.inr ⟨d, _, rfl, hd⟩

/-- A delimiter-free pattern visible at the head of a stripping result was
already visible at the head of the input. -/
theorem startsW_of_startsW_stripGo (p : Str)
    (hp : ∀ c ∈ p, delim c = false) : ∀ fuel s, s.length ≤ fuel →
    startsW p (stripGo fuel s) = true → startsW p s = true := by
  induction p with
  | nil => intro fuel s _ _; rfl
  | cons a p' ih =>
    intro fuel s hlen h
    have ha : delim a = false := hp a (List.mem_cons_self _ _)
    cases s with
    | nil => rw [stripGo_nil] at h; exact absurd h (by rw [startsW]; simp)
    | cons c r =>
      cases fuel with
      | zero => simp at hlen
      | succ fuel =>
        by_cases hc : delim c = true
        · have hshape := stripGo_headDelimOrNil (fuel + 1) (c :: r) hlen
            (Or.inr ⟨c, r, rfl, hc⟩)
          rcases hshape with he | ⟨d, r', he, hd⟩
          · rw [he] at h; exact absurd h (by rw [startsW]; simp)
          · rw [he, startsW, Bool.and_eq_true] at h
            have : a = d := by simpa using h.1
            rw [this, hd] at ha
            cases ha
        · rw [stripGo, if_neg (by simp [hc]), if_neg (by simp [hc])] at h
          rw [startsW, Bool.and_eq_true] at h ⊢
          refine ⟨h.1, ih (fun c hc => hp c (List.mem_cons_of_mem _ hc))
            fuel r (by simpa using hlen) h.2⟩

/-- The stripping pass leaves no key=value `ssl`/`sslmode` parameter start
behind. -/
theorem hasSSLAssign_stripGo (fuel : Nat) : ∀ s, s.length ≤ fuel →
    hasSSLAssign (stripGo fuel s) = false := by
  induction fuel with
  | zero =>
    intro s hlen
    rw [List.length_eq_zero.mp (Nat.le_zero.mp hlen)]
    rfl
  | succ fuel ih =>
    intro s hlen
    cases s with
    | nil => rw [stripGo_nil]; rfl
    | cons c r =>
      have hr : r.length ≤ fuel := by simpa using hlen
      rw [stripGo]
      by_cases h1 : (delim c && startsW (str "sslmode=") r) = true
      · rw [if_pos h1]
        refine ih _ ?_
        calc ((r.drop 8).dropWhile (fun c => c ≠ '&')).length
            ≤ (r.drop 8).length := length_dropWhile_le' _ _
          _ ≤ r.length := by rw [List.length_drop]; omega
          _ ≤ fuel := hr
      · rw [if_neg h1]
        by_cases h2 : (delim c && startsW (str "ssl=") r) = true
        · rw [if_pos h2]
          refine ih _ ?_
          calc ((r.drop 4).dropWhile (fun c => c ≠ '&')).length
              ≤ (r.drop 4).length := length_dropWhile_le' _ _
            _ ≤ r.length := by rw [List.length_drop]; omega
            _ ≤ fuel := hr
        · rw [if_neg h2, hasSSLAssign, ih r hr]
          by_cases hc : delim c = true
          · have hm : startsW (str "sslmode=") (stripGo fuel r) = false := by
              cases hx : startsW (str "sslmode=") (stripGo fuel r) with
              | false => rfl
              | true =>
                have := startsW_of_startsW_stripGo (str "sslmode=") (by decide)
                  fuel r hr hx
                rw [hc, this] at h1
                simp at h1
            have hm' : startsW (str "ssl=") (stripGo fuel r) = false := by
              cases hx : startsW (str "ssl=") (stripGo fuel r) with
              | false => rfl
              | true =>
                have := startsW_of_startsW_stripGo (str "ssl=") (by decide)
                  fuel r hr hx
                rw [hc, this] at h2
                simp at h2
            rw [hm, hm']
            simp
          · rw [Bool.not_eq_true] at hc
            rw [hc]
            rfl

/-- The bare-token scanner is monotone under dropping a head character. -/
theorem hasBareSSL_cons_false (c : Char) (r : Str)
    (h : hasBareSSL (c :: r) = false) : hasBareSSL r = false := by
  rw [hasBareSSL, Bool.or_eq_false_iff] at h
  exact h.2

/-- No bare token in a list, no bare token in any of its drop-suffixes. -/
theorem hasBareSSL_drop (n : Nat) (l : Str) (h : hasBareSSL l = false) :
    hasBareSSL (l.drop n) = false := by
  induction l generalizing n with
  | nil => simpa using h
  | cons c r ih =>
    cases n with
    | zero => exact h
    | succ n => exact ih n (hasBareSSL_cons_false c r h)

/-- No bare token in a list, no bare token after `dropWhile`. -/
theorem hasBareSSL_dropWhile (p : Char → Bool) (l : Str)
    (h : hasBareSSL l = false) : hasBareSSL (l.dropWhile p) = false := by
  induction l with
  | nil => exact h
  | cons c r ih =>
    rw [List.dropWhile_cons]
    by_cases hc : p c = true
    · rw [if_pos hc]
      exact ih (hasBareSSL_cons_false c r h)
    · rw [if_neg hc]
      exact h

/-- A delimiter-free pattern at the head of a string survives the stripping
pass in place: the result starts with the pattern followed by the stripped
remainder (with the fuel reduced accordingly). -/
theorem stripGo_peel (p : Str) (hp : ∀ c ∈ p, delim c = false) :
    ∀ fuel s, s.length ≤ fuel → startsW p s = true →
    stripGo fuel s = p ++ stripGo (fuel - p.length) (s.drop p.length) ∧
      (s.drop p.length).length ≤ fuel - p.length := by
  induction p with
  | nil =>
    intro fuel s hlen _
    simpa using hlen
  | cons a p' ih =>
    intro fuel s hlen hst
    cases s with
    | nil => exact absurd hst (by rw [startsW]; simp)
    | cons c r =>
      cases fuel with
      | zero => simp at hlen
      | succ fuel =>
        rw [startsW, Bool.and_eq_true] at hst
        have hac : a = c := by simpa using hst.1
        have hc : delim c = false := hac ▸ hp a (List.mem_cons_self _ _)
        have hr : r.length ≤ fuel := by simpa using hlen
        obtain ⟨he, hl⟩ := ih (fun c hc => hp c (List.mem_cons_of_mem _ hc))
          fuel r hr hst.2
        rw [stripGo, if_neg (by simp [hc]), if_neg (by simp [hc])]
        constructor
        · rw [he, hac]
          simp [Nat.succ_sub_succ]
        · simpa [Nat.succ_sub_succ] using hl

/-- Every string starts with itself, whatever follows. -/
theorem startsW_append_self (p x : Str) : startsW p (p ++ x) = true := by
  induction p with
  | nil => rfl
  | cons a p' ih => simp [startsW, ih]

/-- A delimiter-free pattern that is not visible at the head of `u` does not
become visible when `u` is extended past a delimiter. -/
theorem startsW_append_delim_false (pat : Str)
    (hpat : ∀ c ∈ pat, delim c = false) (d : Char) (hd : delim d = true) :
    ∀ u w, startsW pat u = false → startsW pat (u ++ d :: w) = false := by
  induction pat with
  | nil => intro u w h; exact absurd h (by rw [startsW]; simp)
  | cons a pr ih =>
    intro u w h
    have ha : delim a = false := hpat a (List.mem_cons_self _ _)
    cases u with
    | nil =>
      rw [List.nil_append, startsW]
      have : a ≠ d := fun e => by rw [e, hd] at ha; cases ha
      simp [this]
    | cons c' u'' =>
      rw [List.cons_append, startsW]
      rw [startsW] at h
      rcases Bool.and_eq_false_iff.mp h with h' | h'
      · simp only [h', Bool.false_and]
      · rw [ih (fun c hc => hpat c (List.mem_cons_of_mem _ hc)) u'' w h']
        simp

/-- Appending `sslmode=<mode>` after a delimiter to an assignment-free string
and stripping removes exactly the appended part: stripping is a retraction
onto assignment-free strings. -/
theorem stripGo_append_tail (mstr : Str) (hm : ('&' : Char) ∉ mstr) (d : Char)
    (hd : delim d = true) : ∀ fuel u,
    (u ++ d :: (str "sslmode=" ++ mstr)).length ≤ fuel →
    hasSSLAssign u = false →
    stripGo fuel (u ++ d :: (str "sslmode=" ++ mstr)) = u := by
  intro fuel
  induction fuel with
  | zero =>
    intro u hlen _
    rw [List.length_append, List.length_cons] at hlen
    omega
  | succ fuel ih =>
    intro u hu hassign
    cases u with
    | nil =>
      rw [List.nil_append, stripGo,
        if_pos (by rw [hd, startsW_append_self]; rfl)]
      have h8 : (str "sslmode=" ++ mstr).drop 8 = mstr := by
        have : (str "sslmode=").length = 8 := rfl
        rw [← this, List.drop_left]
      rw [h8, List.dropWhile_eq_nil_iff.mpr (fun x hx => by
        simp only [ne_eq, decide_eq_true_eq]
        exact fun e => hm (e ▸ hx)), stripGo_nil]
    | cons c u' =>
      rw [hasSSLAssign, Bool.or_eq_false_iff] at hassign
      obtain ⟨hhead, htail⟩ := hassign
      have hlen' : (u' ++ d :: (str "sslmode=" ++ mstr)).length ≤ fuel := by
        simpa using hu
      rw [List.cons_append, stripGo]
      by_cases hc : delim c = true
      · rw [hc, Bool.true_and, Bool.or_eq_false_iff] at hhead
        obtain ⟨hm1, hm2⟩ := hhead
        rw [if_neg (by
          rw [hc, Bool.true_and,
            startsW_append_delim_false (str "sslmode=") (by decide) d hd u' _ hm1]
          simp)]
        rw [if_neg (by
          rw [hc, Bool.true_and,
            startsW_append_delim_false (str "ssl=") (by decide) d hd u' _ hm2]
          simp)]
        rw [ih u' hlen' htail]
      · rw [Bool.not_eq_true] at hc
        rw [if_neg (by rw [hc]; simp), if_neg (by rw [hc]; simp),
          ih u' hlen' htail]

/-- Splitting never yields an empty list of segments. -/
theorem splitOnChar_ne_nil (sep : Char) (l : Str) : splitOnChar sep l ≠ [] := by
  cases l with
  | nil => simp [splitOnChar]
  | cons c r =>
    rw [splitOnChar]
    by_cases hc : c = sep
    · rw [if_pos hc]; simp
    · rw [if_neg hc]
      cases splitOnChar sep r <;> simp

/-- Splitting distributes over a separator occurrence. -/
theorem splitOnChar_append (sep : Char) (xs ys : Str) :
    splitOnChar sep (xs ++ sep :: ys) =
      splitOnChar sep xs ++ splitOnChar sep ys := by
  induction xs with
  | nil => simp [splitOnChar]
  | cons c xs' ih =>
    rw [List.cons_append, splitOnChar]
    by_cases hc : c = sep
    · rw [if_pos hc, ih, splitOnChar, if_pos hc]
      rfl
    · rw [if_neg hc, ih]
      cases hx : splitOnChar sep xs' with
      | nil => exact absurd hx (splitOnChar_ne_nil sep xs')
      | cons s0 r0 =>
        rw [splitOnChar, if_neg hc, hx]
        rfl

/-- A separator-free string splits into itself alone. -/
theorem splitOnChar_no_sep (sep : Char) (l : Str) (h : sep ∉ l) :
    splitOnChar sep l = [l] := by
  induction l with
  | nil => rfl
  | cons c r ih =>
    rw [splitOnChar,
      if_neg (fun e => h (by rw [← e]; exact List.mem_cons_self _ _)),
      ih (fun hx => h (List.mem_cons_of_mem _ hx))]

/-- The query part of an extension of a string that already contains `?`. -/
theorem queryPart_append_left (u v : Str) (h : ('?' : Char) ∈ u) :
    queryPart (u ++ v) = queryPart u ++ v := by
  induction u with
  | nil => cases h
  | cons c u' ih =>
    by_cases hc : c = '?'
    · subst hc
      rw [queryPart, queryPart, List.cons_append, List.dropWhile_cons,
        List.dropWhile_cons]
      simp
    · rw [queryPart, queryPart, List.cons_append, List.dropWhile_cons,
        List.dropWhile_cons, if_pos (by simp [hc]), if_pos (by simp [hc])]
      rw [← queryPart, ← queryPart]
      exact ih ((List.mem_cons.mp h).resolve_left (fun e => hc e.symm))

/-- The query part when the first `?` is an appended one. -/
theorem queryPart_append_right (u w : Str) (h : ('?' : Char) ∉ u) :
    queryPart (u ++ '?' :: w) = w := by
  induction u with
  | nil =>
    rw [List.nil_append, queryPart, List.dropWhile_cons]
    simp
  | cons c u' ih =>
    rw [List.cons_append, queryPart, List.dropWhile_cons,
      if_pos (by simp; exact fun e => h (e ▸ List.mem_cons_self _ _))]
    rw [← queryPart]
    exact ih (fun hx => h (List.mem_cons_of_mem _ hx))

/-- Without a `?`, there is no query part. -/
theorem queryPart_eq_nil (t : Str) (h : ('?' : Char) ∉ t) : queryPart t = [] := by
  rw [queryPart, List.dropWhile_eq_nil_iff.mpr (fun x hx => by
    simp only [ne_eq, decide_eq_true_eq]
    exact fun e => h (e ▸ hx))]
  rfl

/-- Dropping up to the first occurrence of a character lands on it. -/
theorem dropWhile_firstHit (x : Char) (l : Str) (h : x ∈ l) :
    ∃ tl, l.dropWhile (fun c => c ≠ x) = x :: tl := by
  induction l with
  | nil => cases h
  | cons c r ih =>
    rw [List.dropWhile_cons]
    by_cases hc : c = x
    · subst hc
      rw [if_neg (by simp)]
      exact ⟨r, rfl⟩
    · rw [if_pos (by simp [hc])]
      exact ih ((List.mem_cons.mp h).resolve_left (fun e => hc e.symm))

/-- A string containing `?` splits as prefix, `?`, query part. -/
theorem queryPart_decomp (t : Str) (h : ('?' : Char) ∈ t) :
    t = t.takeWhile (fun c => c ≠ '?') ++ '?' :: queryPart t := by
  obtain ⟨tl, htl⟩ := dropWhile_firstHit '?' t h
  conv_lhs => rw [← List.takeWhile_append_dropWhile (p := fun c => c ≠ '?') (l := t)]
  rw [queryPart, htl]
  rfl

/-- The first segment of a split is a leading segment of the string, followed
by nothing or by a separator. -/
theorem splitOnChar_head_decomp (sep : Char) : ∀ (l s0 : Str) (r0 : List Str),
    splitOnChar sep l = s0 :: r0 →
    ∃ y, l = s0 ++ y ∧ (y = [] ∨ ∃ y', y = sep :: y') := by
  intro l
  induction l with
  | nil =>
    intro s0 r0 h
    rw [splitOnChar] at h
    cases h
    exact ⟨[], rfl, Or.inl rfl⟩
  | cons c r ih =>
    intro s0 r0 h
    rw [splitOnChar] at h
    by_cases hc : c = sep
    · rw [if_pos hc] at h
      cases h
      exact ⟨c :: r, rfl, Or.inr ⟨r, by rw [hc]⟩⟩
    · rw [if_neg hc] at h
      cases hx : splitOnChar sep r with
      | nil => exact absurd hx (splitOnChar_ne_nil sep r)
      | cons t0 t1 =>
        rw [hx] at h
        injection h with h1 h2
        subst h1
        subst h2
        obtain ⟨y, hy1, hy2⟩ := ih t0 t1 hx
        exact ⟨y, by rw [List.cons_append, ← hy1], hy2⟩

/-- Every non-first segment of a split is preceded by a separator, and
followed by nothing or by a separator. -/
theorem splitOnChar_tail_decomp (sep : Char) : ∀ (l seg : Str),
    seg ∈ (splitOnChar sep l).tail →
    ∃ x y, l = x ++ sep :: (seg ++ y) ∧ (y = [] ∨ ∃ y', y = sep :: y') := by
  intro l
  induction l with
  | nil =>
    intro seg h
    rw [splitOnChar] at h
    cases h
  | cons c r ih =>
    intro seg h
    rw [splitOnChar] at h
    by_cases hc : c = sep
    · rw [if_pos hc] at h
      rw [List.tail_cons] at h
      cases hx : splitOnChar sep r with
      | nil => exact absurd hx (splitOnChar_ne_nil sep r)
      | cons t0 t1 =>
        rw [hx] at h
        rcases List.mem_cons.mp h with he | ht
        · subst he
          obtain ⟨y, hy1, hy2⟩ := splitOnChar_head_decomp sep r seg t1 hx
          exact ⟨[], y, by rw [List.nil_append, hc, hy1], hy2⟩
        · obtain ⟨x, y, hy1, hy2⟩ := ih seg (by rw [hx, List.tail_cons]; exact ht)
          exact ⟨c :: x, y, by rw [hy1, hc, List.cons_append], hy2⟩
    · rw [if_neg hc] at h
      cases hx : splitOnChar sep r with
      | nil => exact absurd hx (splitOnChar_ne_nil sep r)
      | cons t0 t1 =>
        rw [hx] at h
        rw [List.tail_cons] at h
        obtain ⟨x, y, hy1, hy2⟩ := ih seg (by rw [hx, List.tail_cons]; exact h)
        exact ⟨c :: x, y, by rw [hy1, List.cons_append], hy2⟩

/-- A segment without `=` is its own key. -/
theorem keyOf_eq_self (seg : Str) (h : ('=' : Char) ∉ seg) : keyOf seg = seg := by
  rw [keyOf]
  induction seg with
  | nil => rfl
  | cons c r ih =>
    rw [List.takeWhile_cons, if_pos (by
      simp only [ne_eq, decide_eq_true_eq]
      exact fun e => h (e ▸ List.mem_cons_self _ _))]
    rw [ih (fun hx => h (List.mem_cons_of_mem _ hx))]

/-- A segment containing `=` splits as key, `=`, value. -/
theorem seg_decomp (seg : Str) (h : ('=' : Char) ∈ seg) :
    seg = keyOf seg ++ '=' :: valOf seg := by
  obtain ⟨tl, htl⟩ := dropWhile_firstHit '=' seg h
  conv_lhs => rw [← List.takeWhile_append_dropWhile (p := fun c => c ≠ '=') (l := seg)]
  rw [keyOf, valOf, htl]
  rfl

/-- A key=value `ssl`/`sslmode` start after any delimiter is found by the
assignment scanner. -/
theorem hasSSLAssign_of_occurrence (a : Str) (d : Char) (hd : delim d = true)
    (w : Str)
    (h : startsW (str "sslmode=") w = true ∨ startsW (str "ssl=") w = true) :
    hasSSLAssign (a ++ d :: w) = true := by
  induction a with
  | nil =>
    rw [List.nil_append, hasSSLAssign, hd]
    rcases h with h | h <;> rw [h] <;> simp
  | cons c a' ih =>
    rw [List.cons_append, hasSSLAssign, ih]
    simp

/-- A bare `ssl`/`sslmode` token after any delimiter is found by the bare
scanner. -/
theorem hasBareSSL_of_occurrence (a : Str) (d : Char) (hd : delim d = true)
    (w : Str) (h : bareAfter w = true) : hasBareSSL (a ++ d :: w) = true := by
  induction a with
  | nil =>
    rw [List.nil_append, hasBareSSL, hd, h]
    simp
  | cons c a' ih =>
    rw [List.cons_append, hasBareSSL, ih]
    simp

/-- The stripping pass introduces no bare `ssl`/`sslmode` token: the head of
a peeled remainder keeps its non-delimiter first character, so a token that
is terminated by a delimiter in the output was already terminated by one in
the input. -/
theorem hasBareSSL_stripGo (fuel : Nat) : ∀ s, s.length ≤ fuel →
    hasBareSSL s = false → hasBareSSL (stripGo fuel s) = false := by
  induction fuel with
  | zero =>
    intro s hlen h
    rw [List.length_eq_zero.mp (Nat.le_zero.mp hlen)]
    rfl
  | succ fuel ih =>
    intro s hlen h
    cases s with
    | nil => rw [stripGo_nil]; rfl
    | cons c r =>
      have hr : r.length ≤ fuel := by simpa using hlen
      have hrb : hasBareSSL r = false := hasBareSSL_cons_false c r h
      rw [stripGo]
      by_cases h1 : (delim c && startsW (str "sslmode=") r) = true
      · rw [if_pos h1]
        refine ih _ ?_ ?_
        · calc ((r.drop 8).dropWhile (fun c => c ≠ '&')).length
              ≤ (r.drop 8).length := length_dropWhile_le' _ _
            _ ≤ r.length := by rw [List.length_drop]; omega
            _ ≤ fuel := hr
        · exact hasBareSSL_dropWhile _ _ (hasBareSSL_drop 8 r hrb)
      · rw [if_neg h1]
        by_cases h2 : (delim c && startsW (str "ssl=") r) = true
        · rw [if_pos h2]
          refine ih _ ?_ ?_
          · calc ((r.drop 4).dropWhile (fun c => c ≠ '&')).length
                ≤ (r.drop 4).length := length_dropWhile_le' _ _
              _ ≤ r.length := by rw [List.length_drop]; omega
              _ ≤ fuel := hr
          · exact hasBareSSL_dropWhile _ _ (hasBareSSL_drop 4 r hrb)
        · rw [if_neg h2, hasBareSSL, ih r hr hrb]
          by_cases hc : delim c = true
          · have hbare_r : bareAfter r = false := by
              rw [hasBareSSL, Bool.or_eq_false_iff] at h
              have := h.1
              rw [hc, Bool.true_and] at this
              exact this
            have hstripped : bareAfter (stripGo fuel r) = false := by
              cases hx : bareAfter (stripGo fuel r) with
              | false => rfl
              | true =>
                exfalso
                rw [bareAfter, Bool.or_eq_true] at hx
                rw [bareAfter, Bool.or_eq_false_iff] at hbare_r
                rcases hx with hx | hx
                · rw [Bool.and_eq_true] at hx
                  obtain ⟨hx1, hx2⟩ := hx
                  have hst : startsW (str "sslmode") r = true :=
                    startsW_of_startsW_stripGo (str "sslmode") (by decide)
                      fuel r hr hx1
                  obtain ⟨hpe, -⟩ := stripGo_peel (str "sslmode") (by decide)
                    fuel r hr hst
                  simp only [show ((str "sslmode") : Str).length = 7 from rfl]
                    at hpe
                  rw [hpe] at hx2
                  have hd7 : ((str "sslmode" : Str) ++
                      stripGo (fuel - 7) (r.drop 7)).drop 7 =
                      stripGo (fuel - 7) (r.drop 7) := by
                    have hlen7 : ((str "sslmode") : Str).length = 7 := rfl
                    rw [← hlen7, List.drop_left]
                  rw [hd7] at hx2
                  have he7 : endOrDelim (r.drop 7) = false := by
                    have := hbare_r.1
                    rw [hst, Bool.true_and] at this
                    exact this
                  cases h7 : r.drop 7 with
                  | nil => rw [h7, endOrDelim] at he7; cases he7
                  | cons e rest =>
                    rw [h7, endOrDelim] at he7
                    rw [h7] at hx2
                    have hend : endOrDelim (stripGo (fuel - 7) (e :: rest))
                        = false := by
                      cases hf : fuel - 7 with
                      | zero => rw [stripGo, endOrDelim]; exact he7
                      | succ f'' =>
                        rw [stripGo, if_neg (by rw [he7]; simp),
                          if_neg (by rw [he7]; simp), endOrDelim]
                        exact he7
                    rw [hend] at hx2
                    cases hx2
                · rw [Bool.and_eq_true] at hx
                  obtain ⟨hx1, hx2⟩ := hx
                  have hst : startsW (str "ssl") r = true :=
                    startsW_of_startsW_stripGo (str "ssl") (by decide)
                      fuel r hr hx1
                  obtain ⟨hpe, -⟩ := stripGo_peel (str "ssl") (by decide)
                    fuel r hr hst
                  simp only [show ((str "ssl") : Str).length = 3 from rfl]
                    at hpe
                  rw [hpe] at hx2
                  have hd3 : ((str "ssl" : Str) ++
                      stripGo (fuel - 3) (r.drop 3)).drop 3 =
                      stripGo (fuel - 3) (r.drop 3) := by
                    have hlen3 : ((str "ssl") : Str).length = 3 := rfl
                    rw [← hlen3, List.drop_left]
                  rw [hd3] at hx2
                  have he3 : endOrDelim (r.drop 3) = false := by
                    have := hbare_r.2
                    rw [hst, Bool.true_and] at this
                    exact this
                  cases h3 : r.drop 3 with
                  | nil => rw [h3, endOrDelim] at he3; cases he3
                  | cons e rest =>
                    rw [h3, endOrDelim] at he3
                    rw [h3] at hx2
                    have hend : endOrDelim (stripGo (fuel - 3) (e :: rest))
                        = false := by
                      cases hf : fuel - 3 with
                      | zero => rw [stripGo, endOrDelim]; exact he3
                      | succ f'' =>
                        rw [stripGo, if_neg (by rw [he3]; simp),
                          if_neg (by rw [he3]; simp), endOrDelim]
                        exact he3
                    rw [hend] at hx2
                    cases hx2
            rw [hstripped]
            simp
          · rw [Bool.not_eq_true] at hc
            rw [hc]
            simp

/-- An `ssl`/`sslmode` query segment, in place in the whole string, is seen
by one of the two scanners: as a key=value assignment if it carries `=`, as a
bare token otherwise. -/
theorem scanner_hit_of_sslSeg (A : Str) (dd : Char) (hdd : delim dd = true)
    (seg y : Str) (hy : y = [] ∨ ∃ y', y = '&' :: y')
    (hssl : isSSLSeg seg = true) :
    hasSSLAssign (A ++ dd :: (seg ++ y)) = true ∨
    hasBareSSL (A ++ dd :: (seg ++ y)) = true := by
  have hkey : keyOf seg = str "ssl" ∨ keyOf seg = str "sslmode" := by
    simpa [isSSLSeg] using hssl
  have hEndOr : endOrDelim y = true := by
    rcases hy with rfl | ⟨y', rfl⟩
    · rfl
    · rfl
  by_cases he : ('=' : Char) ∈ seg
  · left
    have hds := seg_decomp seg he
    rcases hkey with hk | hk
    · refine hasSSLAssign_of_occurrence A dd hdd _ (Or.inr ?_)
      rw [hds, hk]
      have : ((str "ssl" : Str) ++ '=' :: valOf seg) ++ y =
          (str "ssl=" : Str) ++ (valOf seg ++ y) := by
        rw [List.append_assoc]
        rfl
      rw [this]
      exact startsW_append_self _ _
    · refine hasSSLAssign_of_occurrence A dd hdd _ (Or.inl ?_)
      rw [hds, hk]
      have : ((str "sslmode" : Str) ++ '=' :: valOf seg) ++ y =
          (str "sslmode=" : Str) ++ (valOf seg ++ y) := by
        rw [List.append_assoc]
        rfl
      rw [this]
      exact startsW_append_self _ _
  · right
    have hks := keyOf_eq_self seg he
    refine hasBareSSL_of_occurrence A dd hdd _ ?_
    rcases hkey with hk | hk <;> rw [hks] at hk <;> subst hk
    · rw [bareAfter]
      have h2 : ((str "ssl" : Str) ++ y).drop 3 = y := by
        have hlen3 : ((str "ssl") : Str).length = 3 := rfl
        rw [← hlen3, List.drop_left]
      rw [h2, startsW_append_self, hEndOr]
      simp
    · rw [bareAfter]
      have h2 : ((str "sslmode" : Str) ++ y).drop 7 = y := by
        have hlen7 : ((str "sslmode") : Str).length = 7 := rfl
        rw [← hlen7, List.drop_left]
      rw [h2, startsW_append_self, hEndOr]
      simp

/-- In a string with neither a key=value `ssl`/`sslmode` parameter start nor
a bare `ssl`/`sslmode` token, no query segment has an `ssl`/`sslmode` key. -/
theorem isSSLSeg_false_in_clean (t : Str) (h1 : hasSSLAssign t = false)
    (h2 : hasBareSSL t = false) :
    ∀ seg ∈ splitOnChar '&' (queryPart t), isSSLSeg seg = false := by
  intro seg hseg
  by_cases hq : ('?' : Char) ∈ t
  · cases hx : splitOnChar '&' (queryPart t) with
    | nil => exact absurd hx (splitOnChar_ne_nil _ _)
    | cons s0 r0 =>
      rw [hx] at hseg
      cases hv : isSSLSeg seg with
      | false => rfl
      | true =>
        exfalso
        have hdec := queryPart_decomp t hq
        rcases List.mem_cons.mp hseg with rfl | ht
        · obtain ⟨y, hy1, hy2⟩ :=
            splitOnChar_head_decomp '&' (queryPart t) seg r0 hx
          rw [hy1] at hdec
          rcases scanner_hit_of_sslSeg (t.takeWhile (fun c => c ≠ '?')) '?'
            rfl seg y hy2 hv with hh | hh
          · rw [← hdec, h1] at hh; cases hh
          · rw [← hdec, h2] at hh; cases hh
        · obtain ⟨x, y, hy1, hy2⟩ := splitOnChar_tail_decomp '&' (queryPart t)
            seg (by rw [hx, List.tail_cons]; exact ht)
          rw [hy1] at hdec
          have hdec' : t = (t.takeWhile (fun c => c ≠ '?') ++ '?' :: x) ++
              '&' :: (seg ++ y) := by
            conv_lhs => rw [hdec]
            simp [List.append_assoc]
          rcases scanner_hit_of_sslSeg
            (t.takeWhile (fun c => c ≠ '?') ++ '?' :: x) '&' rfl seg y hy2 hv
            with hh | hh
          · rw [← hdec', h1] at hh; cases hh
          · rw [← hdec', h2] at hh; cases hh
  · rw [queryPart_eq_nil t hq] at hseg
    rw [show splitOnChar '&' ([] : Str) = [[]] from rfl] at hseg
    rw [List.mem_singleton.mp hseg]
    rfl

/-- Uniform shape of `appendSSLToConnectionString`: the special `disable`
branch of the source produces the same string as the generic branch. -/
theorem appendSSL_eq (s : Str) (m : SSLMode) :
    appendSSLToConnectionString s (modeStr m) =
      stripSSL s ++
        (if ('?' : Char) ∈ stripSSL s then ('&' : Char) else '?') ::
          (str "sslmode=" ++ modeStr m) := by
  dsimp only [appendSSLToConnectionString]
  by_cases hq : ('?' : Char) ∈ stripSSL s
  · rw [if_pos hq, if_pos hq]
    cases m
    · rw [if_pos (by decide), List.append_assoc]
      rfl
    all_goals
      rw [if_neg (by decide), List.append_assoc, List.append_assoc]
      rfl
  · rw [if_neg hq, if_neg hq]
    cases m
    · rw [if_pos (by decide), List.append_assoc]
      rfl
    all_goals
      rw [if_neg (by decide), List.append_assoc, List.append_assoc]
      rfl

/-- No mode spelling contains the separator `&`. -/
theorem amp_not_mem_modeSeg (m : SSLMode) :
    ('&' : Char) ∉ (str "sslmode=" : Str) ++ modeStr m := by
  cases m <;> decide

/-- The appended parameter has key `sslmode` and carries the mode verbatim. -/
theorem modeSeg_facts (m : SSLMode) :
    isSSLSeg ((str "sslmode=" : Str) ++ modeStr m) = true ∧
    keyOf ((str "sslmode=" : Str) ++ modeStr m) = str "sslmode" ∧
    valOf ((str "sslmode=" : Str) ++ modeStr m) = modeStr m := by
  cases m <;> exact ⟨rfl, rfl, rfl⟩

/-- C2 amended, with the idempotence law: provided the URL contains no bare
(value-less) `ssl`/`sslmode` token, augmenting it leaves exactly one
`ssl`/`sslmode` query parameter — the appended `sslmode` carrying exactly the
requested mode, so re-parsing yields that mode back.  Re-augmenting an
already augmented URL is the same as augmenting the original once, for every
URL without exception, so repeated augmentation never accumulates
parameters. -/
theorem appendSSL_roundTrip :
    (∀ (s : Str) (m : SSLMode), hasBareSSL s = false →
      sslSegs (appendSSLToConnectionString s (modeStr m)) =
        [(str "sslmode=" : Str) ++ modeStr m] ∧
      ∀ seg ∈ sslSegs (appendSSLToConnectionString s (modeStr m)),
        keyOf seg = str "sslmode" ∧ valOf seg = modeStr m) ∧
    (∀ (s : Str) (m m2 : SSLMode),
      appendSSLToConnectionString (appendSSLToConnectionString s (modeStr m))
        (modeStr m2) = appendSSLToConnectionString s (modeStr m2)) := by
  constructor
  · intro s m h
    have hA : hasSSLAssign (stripSSL s) = false :=
      hasSSLAssign_stripGo s.length s (le_refl _)
    have hB : hasBareSSL (stripSSL s) = false :=
      hasBareSSL_stripGo s.length s (le_refl _) h
    have hmain : sslSegs (appendSSLToConnectionString s (modeStr m)) =
        [(str "sslmode=" : Str) ++ modeStr m] := by
      rw [appendSSL_eq]
      by_cases hq : ('?' : Char) ∈ stripSSL s
      · rw [if_pos hq, sslSegs,
          queryPart_append_left _ _ hq,
          splitOnChar_append,
          splitOnChar_no_sep '&' _ (amp_not_mem_modeSeg m),
          List.filter_append,
          List.filter_eq_nil_iff.mpr (fun seg hseg => by
            rw [isSSLSeg_false_in_clean (stripSSL s) hA hB seg hseg]
            simp),
          List.nil_append, List.filter_cons,
          if_pos (by rw [(modeSeg_facts m).1])]
        rfl
      · rw [if_neg hq, sslSegs, queryPart_append_right _ _ hq,
          splitOnChar_no_sep '&' _ (amp_not_mem_modeSeg m),
          List.filter_cons, if_pos (by rw [(modeSeg_facts m).1])]
        rfl
    refine ⟨hmain, ?_⟩
    intro seg hseg
    rw [hmain] at hseg
    rw [List.mem_singleton.mp hseg]
    exact ⟨(modeSeg_facts m).2.1, (modeSeg_facts m).2.2⟩
  · intro s m m2
    have hA : hasSSLAssign (stripSSL s) = false :=
      hasSSLAssign_stripGo s.length s (le_refl _)
    have hd : delim (if ('?' : Char) ∈ stripSSL s then ('&' : Char) else '?')
        = true := by
      by_cases hq : ('?' : Char) ∈ stripSSL s
      · rw [if_pos hq]; rfl
      · rw [if_neg hq]; rfl
    have hstrip : stripSSL (appendSSLToConnectionString s (modeStr m)) =
        stripSSL s := by
      rw [appendSSL_eq, stripSSL]
      exact stripGo_append_tail (modeStr m)
        (fun hx => amp_not_mem_modeSeg m (List.mem_append_right _ hx)) _ hd _
        (stripSSL s) (le_refl _) hA
    rw [appendSSL_eq (appendSSLToConnectionString s (modeStr m)) m2, hstrip,
      appendSSL_eq s m2]

/-- Witness for C2: the round-trip at a concrete URL with the `require` mode,
and the idempotence law exercised at a URL that does carry a bare `sslmode`
token. -/
theorem appendSSL_roundTrip_witness :
    (hasBareSSL (str "postgresql://h/db") = false ∧
      sslSegs (appendSSLToConnectionString (str "postgresql://h/db")
          (modeStr .require)) = [(str "sslmode=" : Str) ++ modeStr .require]) ∧
    appendSSLToConnectionString
        (appendSSLToConnectionString (str "postgresql://h/db?sslmode")
          (modeStr .prefer)) (modeStr .require) =
      appendSSLToConnectionString (str "postgresql://h/db?sslmode")
        (modeStr .require) :=
  ⟨⟨by decide, (appendSSL_roundTrip.1 (str "postgresql://h/db") .require
    (by decide)).1⟩,
   appendSSL_roundTrip.2 (str "postgresql://h/db?sslmode") .prefer .require⟩

/-- C2 counterexample: a URL carrying a value-less `sslmode` token — which
the stripping regex `[?&]ssl(mode)?=[^&]*` cannot remove, for it requires an
`=` — ends up with two `ssl`/`sslmode` query parameters after a single
augmentation, so the claim's "strips any pre-existing ssl/sslmode query
parameter" and "never yields more than one" fail as stated. -/
theorem appendSSL_bare_counterexample :
    appendSSLToConnectionString (str "postgresql://h/db?sslmode")
        (str "require") =
      str "postgresql://h/db?sslmode&sslmode=require" ∧
    sslSegs (appendSSLToConnectionString (str "postgresql://h/db?sslmode")
        (str "require")) = [str "sslmode", str "sslmode=require"] := by
  decide

end Schiba

